import Mathlib

/-!
Verification development for the data.cdc.gov metadata reconciliation script
(src/script/data-cdc-gov-metadata.py).

The script joins three sources keyed by a socrata identifier: a download-file
list, a homepage list scraped from sitemaps, and two external collaborators
(the socrata catalog API and the Internet Archive).  We give a shallow
embedding: every Python function of the script becomes a Lean function of the
same name, Python dictionaries become association lists preserving insertion
order, the two collaborators become function parameters, and the uncaught
ValueError of the homepage line unpacking (and the OverflowError of
datetime.utcfromtimestamp on out-of-range epochs) become an Except error.
External call sequencing toward the Internet Archive collaborator is recorded
in an explicit trace so that claims about which calls happen are statable.
-/

namespace CdcMeta

/-! ## Python string primitives -/

/-- The characters Python str.rstrip removes: ASCII whitespace. -/
def pyIsSpace (c : Char) : Bool :=
  c == ' ' || c == '\t' || c == '\n' || c == '\x0d' || c == '\x0b' || c == '\x0c'

/-- Python str.rstrip on a character list. -/
def pyRstripList (l : List Char) : List Char :=
  (l.reverse.dropWhile pyIsSpace).reverse

/-- Python str.rstrip. -/
def pyRstrip (s : String) : String :=
  String.mk (pyRstripList s.data)

/-- The regex character class [a-zA-Z0-9] (ASCII letters and digits). -/
def isAlnumA (c : Char) : Bool := c.isAlpha || c.isDigit

/-- ASCII decimal digit, the model of the regex class matching the timestamp
digits of the download-file pattern. -/
def isDigitA (c : Char) : Bool := c.isDigit

/-- Python str.split on a separator character, splitting at every occurrence
(so a line with no separator yields one field, and n separators yield n+1
fields). -/
def pySplitChar (sep : Char) : List Char → List (List Char)
  | [] => [[]]
  | c :: rest =>
    match pySplitChar sep rest with
    | [] => [[]]
    | f :: fs => if c == sep then [] :: f :: fs else (c :: f) :: fs

/-! ## Association lists: the model of Python dictionaries

Insertion order is preserved (Python dict iteration order); a fresh key goes
to the end, an existing key keeps its position. -/

/-- Record of string-valued fields: the model of the per-dataset `values`
dictionaries and of parsed socrata metadata. -/
abbrev Values := List (String × String)

/-- Python d[k] read, as an Option (a missing key is a KeyError). -/
def getv : Values → String → Option String
  | [], _ => none
  | (k, v) :: rest, key => if k = key then some v else getv rest key

/-- Python d[k] = v write: overwrite in place, or append a fresh key. -/
def setv : Values → String → String → Values
  | [], k, v => [(k, v)]
  | (k0, v0) :: rest, k, v =>
    if k0 = k then (k, v) :: rest else (k0, v0) :: setv rest k v

/-- Python d.update(u): fold the writes of u into d in order. -/
def updatev (base upd : Values) : Values :=
  upd.foldl (fun acc p => setv acc p.1 p.2) base

/-- Dictionary from strings to lists of records: the model of both
the download index and the results dictionary. -/
abbrev StrDict := List (String × List Values)

/-- Read a key of a StrDict. -/
def dictGet : StrDict → String → Option (List Values)
  | [], _ => none
  | (k, l) :: rest, key => if k = key then some l else dictGet rest key

/-- The keys of a StrDict, in insertion order. -/
def dictKeys (d : StrDict) : List String := d.map Prod.fst

/-- Append one record under a key: if the key exists its list is extended at
the end (d[k].append(v)), otherwise a singleton list is bound (d[k] = [v]).
This is the shape both dictionaries of the script are built with. -/
def dictPushRec : StrDict → String → Values → StrDict
  | [], k, v => [(k, [v])]
  | (k0, l) :: rest, k, v =>
    if k0 = k then (k0, l ++ [v]) :: rest else (k0, l) :: dictPushRec rest k v

/-- All records of a StrDict, in dictionary order. -/
def allRecords (d : StrDict) : List Values :=
  (d.map Prod.snd).flatten

/-! ## The download-file pattern and timestamp rendering

The script matches each download line against the anchored regex
r"^(?P<socrata_id>[a-zA-Z0-9]+-[a-zA-Z0-9]+)_(?P<timestamp>\d+\.\d+)_".
Because each repeated character class excludes the character that must follow
it, backtracking never helps: the regex accepts exactly when the maximal run
of each class is followed by the required literal.  parseDownloadLine is that
deterministic reading. -/

/-- Match the download-filename prefix pattern against a character list.
On success returns the socrata_id capture (as a string) and the digits of the
integer part of the timestamp capture.  Each repetition is a maximal
takeWhile run; the remainder after a run is the matching dropWhile. -/
def parseDownloadLine (l : List Char) : Option (String × List Char) :=
  let r1 := l.takeWhile isAlnumA
  if r1.isEmpty then none else
  match l.dropWhile isAlnumA with
  | c1 :: rest2 =>
    if c1 == '-' then
      let r2 := rest2.takeWhile isAlnumA
      if r2.isEmpty then none else
      match rest2.dropWhile isAlnumA with
      | c2 :: rest4 =>
        if c2 == '_' then
          let d1 := rest4.takeWhile isDigitA
          if d1.isEmpty then none else
          match rest4.dropWhile isDigitA with
          | c3 :: rest6 =>
            if c3 == '.' then
              let d2 := rest6.takeWhile isDigitA
              if d2.isEmpty then none else
              match rest6.dropWhile isDigitA with
              | c4 :: _ =>
                if c4 == '_' then some (String.mk (r1 ++ '-' :: r2), d1) else none
              | [] => none
            else none
          | [] => none
        else none
      | [] => none
    else none
  | [] => none

/-- Value of a digit list read in base 10. -/
def digitsToNat (l : List Char) : Nat :=
  l.foldl (fun acc c => 10 * acc + (c.toNat - 48)) 0

/-- Civil date from a count of days since 1970-01-01 (proleptic Gregorian),
the arithmetic behind datetime.utcfromtimestamp for nonnegative epochs.
Returns (year, month, day). -/
def civilFromDays (z0 : Nat) : Nat × Nat × Nat :=
  let z := z0 + 719468
  let era := z / 146097
  let doe := z % 146097
  let yoe := (doe - doe / 1460 + doe / 36524 - doe / 146096) / 365
  let y := yoe + era * 400
  let doy := doe - (365 * yoe + yoe / 4 - yoe / 100)
  let mp := (5 * doy + 2) / 153
  let d := doy - (153 * mp + 2) / 5 + 1
  let m := if mp < 10 then mp + 3 else mp - 9
  (if m ≤ 2 then y + 1 else y, m, d)

/-- Zero-pad a number below 100 to two digits (strftime %m %d %H %M %S). -/
def pad2 (n : Nat) : String :=
  if n < 10 then "0" ++ toString n else toString n

/-- Model of datetime.utcfromtimestamp(secs).strftime("%Y-%m-%d %H:%M:%S UTC")
for a nonnegative whole number of seconds (strftime without %f truncates the
fractional seconds away). -/
def utcTimestampStr (secs : Nat) : String :=
  let days := secs / 86400
  let rem := secs % 86400
  let ymd := civilFromDays days
  toString ymd.1 ++ "-" ++ pad2 ymd.2.1 ++ "-" ++ pad2 ymd.2.2 ++ " " ++
    pad2 (rem / 3600) ++ ":" ++ pad2 (rem % 3600 / 60) ++ ":" ++ pad2 (rem % 60) ++ " UTC"

/-- First epoch second outside the range of datetime.utcfromtimestamp
(year 10000); at or beyond it the Python call raises OverflowError/ValueError
and the script, which does not catch it, dies. -/
def utcfromtimestampLimit : Nat := 253402300800

/-- The inner dictionary built for one matched download line:
the stored filename is the whole (rstripped) line. -/
def mkDownloadRecord (line : String) (secs : Nat) : Values :=
  [("download_filename", line), ("download_ts", utcTimestampStr secs)]

/-- One loop iteration of build_download_file_dict on an already rstripped,
nonempty line. -/
def buildStep (d : StrDict) (line : String) : Except String StrDict :=
  match parseDownloadLine line.data with
  | none => .ok d
  | some (sid, intDigits) =>
    let secs := digitsToNat intDigits
    if secs < utcfromtimestampLimit then
      .ok (dictPushRec d sid (mkDownloadRecord line secs))
    else
      .error "OverflowError: timestamp out of range for platform time_t"

/-- Fold buildStep over the lines, propagating the first error. -/
def buildAux : List String → StrDict → Except String StrDict
  | [], d => .ok d
  | line :: rest, d =>
    match buildStep d line with
    | .ok d2 => buildAux rest d2
    | .error e => .error e

/-- The lines a readline / rstrip / break-on-empty loop actually processes:
every line is rstripped, and the loop stops at the first line that rstrips
to the empty string (end of file, or a blank line). -/
def takeLines (ls : List String) : List String :=
  (ls.map pyRstrip).takeWhile (fun s => !(s == ""))

/-- build_download_file_dict: parse the download list into the index from
socrata id to the ordered list of download records, skipping unparseable
lines and appending on repeated ids. -/
def build_download_file_dict (ls : List String) : Except String StrDict :=
  buildAux (takeLines ls) []

/-! ## is_socrata_id

The script tests re.match(r"^[a-zA-Z0-9]{4}-[a-zA-Z0-9]{4}$", s).  We embed
the match compositionally: consume four alphanumerics, a hyphen, and four
alphanumerics, then apply the Python semantics of the dollar anchor, which
accepts at the end of the string and also just before one trailing
newline character. -/

/-- Consume the 4-alnum, hyphen, 4-alnum core of the socrata id pattern,
returning the unconsumed remainder of the input on success. -/
def idCoreAfter : List Char → Option (List Char)
  | a :: b :: c :: d :: m :: e :: f :: g :: h :: rest =>
    if m == '-' && [a, b, c, d, e, f, g, h].all isAlnumA then some rest else none
  | _ => none

/-- The Python dollar anchor: matches at the end of the input, or just
before a single final newline. -/
def dollarAccepts : List Char → Bool
  | [] => true
  | [c] => c == '\n'
  | _ => false

/-- is_socrata_id: does the string match the socrata id regex? -/
def is_socrata_id (s : String) : Bool :=
  match idCoreAfter s.data with
  | some rest => dollarAccepts rest
  | none => false

/-! ## Homepage line parsing

get_next_homepage_url_line rstrips the line, returns None on an empty line,
unpacks line.split(",") into exactly two variables (raising ValueError on any
other field count), and extracts the candidate id as the final path component
of the parsed homepage url. -/

/-- Characters allowed after the first in a url scheme. -/
def isSchemeChar (c : Char) : Bool :=
  c.isAlpha || c.isDigit || c == '+' || c == '-' || c == '.'

/-- Strip a leading "scheme:" when the text before the first colon is a valid
scheme name (first character a letter, the rest scheme characters). -/
def stripScheme (l : List Char) : List Char :=
  let pre := l.takeWhile (fun c => !(c == ':'))
  match l.dropWhile (fun c => !(c == ':')) with
  | ':' :: rest =>
    match pre with
    | c0 :: more => if c0.isAlpha && more.all isSchemeChar then rest else l
    | [] => l
  | _ => l

/-- Take the characters up to (excluding) the first occurrence of sep. -/
def takeUntil (sep : Char) (l : List Char) : List Char :=
  l.takeWhile (fun c => !(c == sep))

/-- Model of urlparse(url).path: drop the fragment, the scheme, the
"//netloc" part and the query.  Mirrors the CPython check that a netloc with
an unmatched square bracket raises ValueError (returned as none here);
the Unicode-normalization checks of CPython concern non-ASCII input outside
the modelled character set. -/
def urlparsePath (url : String) : Option String :=
  let l1 := takeUntil '#' url.data
  let l2 := stripScheme l1
  match l2 with
  | '/' :: '/' :: rest =>
    let netloc := rest.takeWhile (fun c => !(c == '/') && !(c == '?'))
    if (netloc.contains '[' && !(netloc.contains ']')) ||
       (netloc.contains ']' && !(netloc.contains '[')) then none
    else
      some (String.mk (takeUntil '?' (rest.dropWhile (fun c => !(c == '/') && !(c == '?')))))
  | _ => some (String.mk (takeUntil '?' l2))

/-- Model of pathlib PurePosixPath(p).name: the last path component after
dropping empty components and single dots. -/
def pathName (p : String) : String :=
  let parts := (pySplitChar '/' p.data).filter (fun x => !(x == []) && !(x == ['.']))
  match parts.getLast? with
  | some last => String.mk last
  | none => ""

/-- Outcome of get_next_homepage_url_line on one raw line. -/
inductive HpResult where
  /-- The line rstripped to the empty string: the reader reports end of
  input (the script breaks its loop). -/
  | eof : HpResult
  /-- The comma split did not yield exactly two fields, or urlparse
  rejected the netloc: an uncaught ValueError. -/
  | valueError : HpResult
  /-- A parsed entry: optional extracted socrata id, and the homepage url. -/
  | entry : Option String → String → HpResult
  deriving DecidableEq

/-- get_next_homepage_url_line on one raw input line. -/
def get_next_homepage_url_line (raw : String) : HpResult :=
  let line := pyRstrip raw
  if line = "" then .eof else
  match pySplitChar ',' line.data with
  | [_, h] =>
    let homepage := String.mk h
    match urlparsePath homepage with
    | none => .valueError
    | some path =>
      let cand := pathName path
      if is_socrata_id cand then .entry (some cand) homepage
      else .entry none homepage
  | _ => .valueError

/-! ## get_socrata_data

The collaborator rt.find_socrata_dataset_by_id is modelled as a function from
the id to a result carrying an optional metadata mapping (None or an empty
mapping are both falsy in Python) and the text the call printed to stdout,
which the script captures by redirection. -/

/-- What one catalog collaborator call yields: the returned mapping, if any,
and the captured stdout text. -/
structure SocResult where
  /-- The metadata mapping the collaborator returned, none when it returned
  None; metadata values are flattened to strings. -/
  meta : Option Values
  /-- The text the call wrote to stdout, captured by redirect_stdout. -/
  stdout : String
  deriving DecidableEq

/-- Python falsiness of the collaborator return: None or an empty mapping. -/
def metaFalsy : Option Values → Bool
  | none => true
  | some m => m.isEmpty

/-- Model of Python str() on the metadata mapping. -/
def pyStrMeta (m : Values) : String :=
  "\x7b" ++ String.intercalate ", "
    (m.map (fun p => "\x27" ++ p.1 ++ "\x27: \x27" ++ p.2 ++ "\x27")) ++ "\x7d"

/-- The key-presence-guarded copy the script performs: when the metadata
mapping carries the key, write its value into the output field, otherwise
leave the output untouched. -/
def copyIfPresent (m : Values) (key : String) (out : Values) (field : String) : Values :=
  match getv m key with
  | some x => setv out field x
  | none => out

/-- get_socrata_data: normalize one collaborator result into the
four-field record, never raising. -/
def get_socrata_data (soc : String → SocResult) (socrata_id : String) : Values :=
  let res := soc socrata_id
  let ret0 : Values :=
    [("soc_name", "UNKN_SOC_NAME"), ("soc_homepage", ""), ("soc_description", "")]
  if metaFalsy res.meta then
    setv ret0 "socrata_meta" res.stdout
  else
    match res.meta with
    | none => setv ret0 "socrata_meta" res.stdout
    | some m =>
      if (getv m "error").isSome then
        setv (copyIfPresent m "name" ret0 "soc_name") "socrata_meta" (pyStrMeta m)
      else
        setv (copyIfPresent m "description"
          (copyIfPresent m "homepage" (copyIfPresent m "name" ret0 "soc_name")
            "soc_homepage") "soc_description") "socrata_meta" (pyStrMeta m)

/-! ## The reconciliation engine

The module-level loop of the script.  The Internet Archive collaborator
get_internet_archive_snapshots catches every exception and is therefore a
total function parameter ia; the urls it is invoked on are recorded in a
trace, so that claims about which calls happen are statable. -/

/-- The loop "for download_file_dict in download_file_dict_list" that copies
filename and timestamp of every download record into the values dictionary
in order, so that the last record of the list wins. -/
def assembleSnapshots (values : Values) (l : List Values) : Values :=
  l.foldl
    (fun v r =>
      setv (setv v "dataset_snapshot_filename" ((getv r "download_filename").getD ""))
        "dataset_snapshot_dl_ts" ((getv r "download_ts").getD ""))
    values

/-- Engine state during the main pass. -/
structure MainState where
  /-- results_dict: dataset name mapped to the records filed under it. -/
  results : StrDict
  /-- download_files_processed: the ids matched to a download entry. -/
  processed : List String
  /-- Trace of the urls passed to get_internet_archive_snapshots. -/
  iaCalls : List String
  deriving DecidableEq

/-- The body of one main-pass iteration for an entry whose socrata id was
extracted: call the archive collaborator on the homepage, resolve catalog
metadata, look the id up in the download index (marking it consumed and
taking the last download record on a hit, empty strings on a miss), and file
the record under its soc_name. -/
def mainEntryStep (soc : String → SocResult) (ia : String → String) (dl : StrDict)
    (st : MainState) (socrata_id homepage : String) : MainState :=
  let values := setv (setv [] "socrata_id" socrata_id) "homepage" homepage
  let values := setv values "internet_archive_snapshots" (ia homepage)
  let values := updatev values (get_socrata_data soc socrata_id)
  match dictGet dl socrata_id with
  | none =>
    let values := setv (setv values "dataset_snapshot_filename" "") "dataset_snapshot_dl_ts" ""
    { results := dictPushRec st.results ((getv values "soc_name").getD "") values
      processed := st.processed
      iaCalls := st.iaCalls ++ [homepage] }
  | some l =>
    let values := assembleSnapshots values l
    { results := dictPushRec st.results ((getv values "soc_name").getD "") values
      processed := st.processed ++ [socrata_id]
      iaCalls := st.iaCalls ++ [homepage] }

/-- The main pass: read homepage lines until the reader reports end of input,
skipping entries without an id, propagating the ValueError of a bad line. -/
def runMainPass (soc : String → SocResult) (ia : String → String) (dl : StrDict) :
    List String → MainState → Except String MainState
  | [], st => .ok st
  | raw :: rest, st =>
    match get_next_homepage_url_line raw with
    | .eof => .ok st
    | .valueError => .error "ValueError: unhandled homepage line"
    | .entry none _ => runMainPass soc ia dl rest st
    | .entry (some sid) homepage =>
      runMainPass soc ia dl rest (mainEntryStep soc ia dl st sid homepage)

/-- One leftover record: the reduced reconciliation path for a download-index
id the main pass did not consume.  Returns the record and the archive urls
queried while building it.  Because get_socrata_data always writes the
soc_homepage key, the key-presence test of the script is always true: the
archive collaborator is invoked on whatever soc_homepage holds (possibly the
empty string) and the homepage field is overwritten with it. -/
def leftoverRecord (soc : String → SocResult) (ia : String → String)
    (socrata_id : String) (recs : List Values) : Values × List String :=
  let values := setv (setv [] "socrata_id" socrata_id) "homepage" ""
  let values := updatev values (get_socrata_data soc socrata_id)
  let values := setv values "internet_archive_snapshots" ""
  let step := match getv values "soc_homepage" with
    | some h =>
      (setv (setv values "internet_archive_snapshots" (ia h)) "homepage" h, [h])
    | none => (values, [])
  (assembleSnapshots step.1 recs, step.2)

/-- process_leftover_download_files: sweep the download index in insertion
order and build one record for every id not marked consumed. -/
def process_leftover_download_files (soc : String → SocResult) (ia : String → String) :
    StrDict → List String → List Values × List String
  | [], _ => ([], [])
  | (k, l) :: rest, processed =>
    let tail := process_leftover_download_files soc ia rest processed
    if processed.contains k then tail
    else
      let r := leftoverRecord soc ia k l
      (r.1 :: tail.1, r.2 ++ tail.2)

/-- Final state of a completed run. -/
structure RunResult where
  /-- results_dict after the main pass and the leftover sweep. -/
  results : StrDict
  /-- The ids the main pass consumed. -/
  processed : List String
  /-- Every url passed to get_internet_archive_snapshots, in call order. -/
  iaCalls : List String
  deriving DecidableEq

/-- The whole module run up to report emission: build the download index,
run the main pass over the homepage lines and append every leftover record
under its soc_name. -/
def runModule (soc : String → SocResult) (ia : String → String)
    (dlLines hpLines : List String) : Except String RunResult :=
  match build_download_file_dict dlLines with
  | .error e => .error e
  | .ok dl =>
    match runMainPass soc ia dl hpLines ⟨[], [], []⟩ with
    | .error e => .error e
    | .ok st =>
      let lo := process_leftover_download_files soc ia dl st.processed
      .ok
        { results :=
            lo.1.foldl (fun r v => dictPushRec r ((getv v "soc_name").getD "") v) st.results
          processed := st.processed
          iaCalls := st.iaCalls ++ lo.2 }

/-! ## The report assembler -/

/-- The literal preamble lines of header_text, as splitlines() yields them. -/
def headerLines : List String :=
  ["This is supplementary information for a series of data.cdc.gov dataset snapshots taken in January 2025.",
   "Methodology notes:        ",
   "In January 2025, the sitemaps.xml files for data.cdc.gov were used to come up with a list of dataset homepages served by that host.",
   "From there, the datasets themselves were downloaded (download_filename, downloaded_ts). The socrata id was inferred from the dataset homepage\x27s URL, and the downloaded filename became: socrata-id_download-timestamp-as-unix-epoch_name-downloaded-file-name.",
   "To construct the rest of this documentation, socrata metadata was queried for the id. If found, the socrata name metadata became the dataset_name column, and the socrata_description became the description column.",
   "All the socrata metadata is a single string in the additional metadata column. The socrata metadata was queried on Feb. 13. 2025. If the socrata metadata query was unsuccessful, the \"UNKN_SOC_NAME\" name was used.",
   "The dataset homepages include metadata about the datasets themselves and change over time. The Internet Archive has snapshots of these homepages, and links to the snpshots are in the Internet Archive snapshots column.",
   "The data are ordered by dataset name and may contain more than one dataset endpoint, identified by socrata id.",
   "",
   "The dataset snapshots are available at: https://cdcdotgovarchive.org/CDC_datasets/.",
   "The script that built this is here: https://github.com/YakShavingAsAService/data.cdc.gov-metadata "]

/-- The preamble rows: one single-cell row per preamble line. -/
def preambleRows : List (List String) :=
  headerLines.map (fun h => [h])

/-- The fixed eight-column header row. -/
def reportHeaderRow : List String :=
  ["dataset name", "socrata id", "download filename", "downloaded ts",
   "dataset homepage", "description", "Internet Archive snapshots", "addtl socrata metadata"]

/-- Python string comparison on character lists: lexicographic by code
point. -/
def listLe : List Char → List Char → Bool
  | [], _ => true
  | _ :: _, [] => false
  | a :: as, b :: bs =>
    if a.toNat < b.toNat then true
    else if b.toNat < a.toNat then false
    else listLe as bs

/-- Python default string ordering. -/
def strLe (a b : String) : Bool := listLe a.data b.data

/-- Stable insertion into a list sorted by le: the new element goes after
every element it does not strictly precede. -/
def insertBy (le : α → α → Bool) (x : α) : List α → List α
  | [] => [x]
  | y :: ys => if le y x then y :: insertBy le x ys else x :: y :: ys

/-- Stable insertion sort, the model of Python sorted. -/
def sortBy (le : α → α → Bool) (l : List α) : List α :=
  l.foldl (fun acc x => insertBy le x acc) []

/-- The sort key of "key=lambda x: x[\x27socrata_id\x27]". -/
def recId (v : Values) : String := (getv v "socrata_id").getD ""

/-- One data row: every cell is a dictionary read that can fail with a
KeyError when the field is missing, hence the Option. -/
def rowOf (name : String) (ds : Values) : Option (List String) :=
  match getv ds "socrata_id", getv ds "dataset_snapshot_filename",
      getv ds "dataset_snapshot_dl_ts", getv ds "homepage",
      getv ds "soc_description", getv ds "internet_archive_snapshots",
      getv ds "socrata_meta" with
  | some c1, some c2, some c3, some c4, some c5, some c6, some c7 =>
    some [name, c1, c2, c3, c4, c5, c6, c7]
  | _, _, _, _, _, _, _ => none

/-- Collect a list of optional values, failing when any is missing. -/
def optAll : List (Option α) → Option (List α)
  | [] => some []
  | o :: rest => o.bind (fun x => (optAll rest).map (fun xs => x :: xs))

/-- The data rows of the report: names in sorted order, each group sorted by
socrata id, every record contributing one row. -/
def dataRowsOf (results : StrDict) : Option (List (List String)) :=
  (optAll
      ((sortBy strLe (dictKeys results)).map (fun n =>
        optAll ((sortBy (fun a b => strLe (recId a) (recId b))
            ((dictGet results n).getD [])).map (rowOf n))))).map
    List.flatten

/-- The full report: the preamble rows, the header row, then the data rows. -/
def emitReport (results : StrDict) : Option (List (List String)) :=
  (dataRowsOf results).map (fun dr => preambleRows ++ reportHeaderRow :: dr)

/-! ## Derived definitions used by the statements -/

/-- Does this record carry the identifier sid? -/
def hasId (sid : String) (v : Values) : Bool := getv v "socrata_id" == some sid

/-- How many records of the results dictionary carry the identifier sid. -/
def countIdD (d : StrDict) (sid : String) : Nat :=
  (allRecords d).countP (hasId sid)

/-- The eight output fields every assembled record is expected to carry:
identifier, homepage, archive snapshots, name, description, raw metadata,
snapshot filename and snapshot download timestamp. -/
def reportFields : List String :=
  ["socrata_id", "homepage", "internet_archive_snapshots", "soc_name",
   "soc_description", "socrata_meta", "dataset_snapshot_filename", "dataset_snapshot_dl_ts"]

/-- All eight output fields are present in the record. -/
def fieldsOk (v : Values) : Bool :=
  reportFields.all (fun k => (getv v k).isSome)

/-- The results-dictionary invariant: every stored record carries all eight
output fields and sits under the key equal to its own resolved name. -/
def ResultsInv (d : StrDict) : Prop :=
  ∀ p ∈ d, ∀ v ∈ p.2, fieldsOk v = true ∧ getv v "soc_name" = some p.1

/-- The row a record produces when every field read succeeds. -/
def rowTotal (name : String) (ds : Values) : List String :=
  [name, (getv ds "socrata_id").getD "", (getv ds "dataset_snapshot_filename").getD "",
   (getv ds "dataset_snapshot_dl_ts").getD "", (getv ds "homepage").getD "",
   (getv ds "soc_description").getD "", (getv ds "internet_archive_snapshots").getD "",
   (getv ds "socrata_meta").getD ""]

/-- Row ordering: the first column (the resolved name) is non-decreasing, and
rows that share a first column have a non-decreasing second column (the
socrata id).  Pairwise over the data rows this says the rows are grouped by
name in ascending order with ids ascending within a group. -/
def rowLe (r1 r2 : List String) : Prop :=
  strLe (r1.headD "") (r2.headD "") = true ∧
    (r1.headD "" = r2.headD "" → strLe (r1.getD 1 "") (r2.getD 1 "") = true)

/-- A formalization of the shape the specification ascribes to identifiers:
exactly four alphanumerics, one hyphen, exactly four alphanumerics, anchored
at both ends with no leading or trailing characters of any kind.  Stated
independently of is_socrata_id so the two can be compared. -/
def specIdShape (s : String) : Bool :=
  s.data.length == 9 && (s.data.getD 4 ' ' == '-') &&
    ((s.data.take 4).all isAlnumA && (s.data.drop 5).all isAlnumA)

/-- Does the string end in one newline character? -/
def endsWithNewline (s : String) : Bool :=
  match s.data.getLast? with
  | some c => c == '\n'
  | none => false

/-- The shape the download-index pattern actually guarantees for its keys:
one or more alphanumerics, one hyphen, one or more alphanumerics. -/
def laxIdShape (s : String) : Bool :=
  let sp := s.data.span isAlnumA
  !sp.1.isEmpty &&
    (match sp.2 with
     | c :: r2 => c == '-' && !r2.isEmpty && r2.all isAlnumA
     | [] => false)

/-- The download records that the lines the builder processes contribute for
the identifier sid, one per matching line, in file order. -/
def mrecsAux (sid : String) (lines : List String) : List Values :=
  lines.filterMap (fun line =>
    match parseDownloadLine line.data with
    | some (s, intDigits) =>
      if s = sid then some (mkDownloadRecord line (digitsToNat intDigits)) else none
    | none => none)

/-- The download records belonging to sid over the whole raw download list. -/
def matchingRecords (sid : String) (ls : List String) : List Values :=
  mrecsAux sid (takeLines ls)

/-- How many homepage lines the main pass turns into an entry bearing the
identifier sid, honoring the early stop of the reader. -/
def entriesCount (sid : String) : List String → Nat
  | [] => 0
  | raw :: rest =>
    match get_next_homepage_url_line raw with
    | .eof => 0
    | .valueError => 0
    | .entry none _ => entriesCount sid rest
    | .entry (some s) _ => (if s = sid then 1 else 0) + entriesCount sid rest

/-- A catalog collaborator that finds nothing and prints nothing. -/
def socUnknown : String → SocResult := fun _ => ⟨none, ""⟩

/-- A catalog collaborator returning metadata that carries a name but no
homepage and no description. -/
def socNamedNM : String → SocResult := fun _ => ⟨some [("name", "NM")], ""⟩

/-- An archive collaborator that tags its answer with the queried url, so
the answer shows which call produced it. -/
def iaProbe : String → String := fun u => if u == "" then "IA_AT_EMPTY" else "IA_" ++ u

/-! ## Lemmas about the dictionary model -/

theorem getv_setv (v : Values) (k k' x : String) :
    getv (setv v k x) k' = if k' = k then some x else getv v k' := by
  induction v with
  | nil =>
    by_cases h : k' = k
    · subst h; simp [setv, getv]
    · simp [setv, getv, h, Ne.symm h]
  | cons p rest ih =>
    obtain ⟨k0, v0⟩ := p
    by_cases h0 : k0 = k
    · subst h0
      by_cases h : k' = k0
      · subst h; simp [setv, getv]
      · simp [setv, getv, h, Ne.symm h]
    · by_cases h : k' = k0
      · subst h
        have hk : ¬ k' = k := fun he => h0 (he.symm ▸ rfl)
        simp [setv, getv, h0, hk]
      · simp [setv, getv, h0, Ne.symm h, ih]

theorem getv_setv_self (v : Values) (k x : String) : getv (setv v k x) k = some x := by
  simp [getv_setv]

theorem getv_setv_ne (v : Values) {k k' : String} (x : String) (h : k' ≠ k) :
    getv (setv v k x) k' = getv v k' := by
  simp [getv_setv, h]

theorem isSome_getv_setv (v : Values) (k k' x : String) (h : (getv v k').isSome) :
    (getv (setv v k x) k').isSome := by
  by_cases hk : k' = k
  · subst hk; simp [getv_setv_self]
  · rwa [getv_setv_ne v x hk]

theorem getv_updatev_of_none {u : Values} {k : String} (h : getv u k = none) (v : Values) :
    getv (updatev v u) k = getv v k := by
  induction u generalizing v with
  | nil => rfl
  | cons p rest ih =>
    obtain ⟨k0, x0⟩ := p
    simp only [getv] at h
    by_cases h0 : k0 = k
    · simp [h0] at h
    · simp only [h0, if_false] at h
      show getv (updatev (setv v k0 x0) rest) k = getv v k
      rw [ih h, getv_setv_ne _ _ (fun he => h0 he.symm)]

theorem isSome_getv_updatev_left {v : Values} {k : String} (h : (getv v k).isSome)
    (u : Values) : (getv (updatev v u) k).isSome := by
  induction u generalizing v with
  | nil => exact h
  | cons p rest ih =>
    exact ih (isSome_getv_setv v p.1 k p.2 h)

theorem isSome_getv_updatev_right (v : Values) {u : Values} {k : String}
    (h : (getv u k).isSome) : (getv (updatev v u) k).isSome := by
  induction u generalizing v with
  | nil => simp [getv] at h
  | cons p rest ih =>
    obtain ⟨k0, x0⟩ := p
    by_cases hrest : (getv rest k).isSome
    · show (getv (updatev (setv v k0 x0) rest) k).isSome
      exact ih (setv v k0 x0) hrest
    · have hnone : getv rest k = none := by
        cases hg : getv rest k with
        | none => rfl
        | some x => rw [hg] at hrest; simp at hrest
      simp only [getv] at h
      by_cases h0 : k0 = k
      · subst h0
        show (getv (updatev (setv v k0 x0) rest) k0).isSome
        rw [getv_updatev_of_none hnone, getv_setv_self]
        rfl
      · simp [h0, hnone] at h

theorem dictGet_pushRec (d : StrDict) (k k' : String) (v : Values) :
    dictGet (dictPushRec d k v) k' =
      if k' = k then some ((dictGet d k).getD [] ++ [v]) else dictGet d k' := by
  induction d with
  | nil =>
    by_cases h : k' = k
    · subst h; simp [dictPushRec, dictGet]
    · simp [dictPushRec, dictGet, h, Ne.symm h]
  | cons p rest ih =>
    obtain ⟨k0, l0⟩ := p
    by_cases h0 : k0 = k
    · subst h0
      by_cases h : k' = k0
      · subst h; simp [dictPushRec, dictGet]
      · simp [dictPushRec, dictGet, h, Ne.symm h]
    · by_cases h : k' = k0
      · subst h
        have hk : ¬ k' = k := fun he => h0 (he.symm ▸ rfl)
        simp [dictPushRec, dictGet, h0, hk]
      · simp [dictPushRec, dictGet, h0, Ne.symm h, ih, h]

theorem dictGet_pushRec_self (d : StrDict) (k : String) (v : Values) :
    dictGet (dictPushRec d k v) k = some ((dictGet d k).getD [] ++ [v]) := by
  simp [dictGet_pushRec]

theorem dictKeys_pushRec (d : StrDict) (k : String) (v : Values) :
    dictKeys (dictPushRec d k v) =
      if (dictGet d k).isSome then dictKeys d else dictKeys d ++ [k] := by
  induction d with
  | nil => simp [dictPushRec, dictKeys, dictGet]
  | cons p rest ih =>
    obtain ⟨k0, l0⟩ := p
    by_cases h0 : k0 = k
    · subst h0; simp [dictPushRec, dictKeys, dictGet]
    · have hpush : dictPushRec ((k0, l0) :: rest) k v = (k0, l0) :: dictPushRec rest k v := by
        simp [dictPushRec, h0]
      have hget : dictGet ((k0, l0) :: rest) k = dictGet rest k := by
        simp [dictGet, h0]
      rw [hpush, hget]
      show k0 :: dictKeys (dictPushRec rest k v) = _
      rw [ih]
      by_cases hs : (dictGet rest k).isSome <;> simp [hs, dictKeys]

theorem dictGet_isSome_iff_mem (d : StrDict) (k : String) :
    (dictGet d k).isSome ↔ k ∈ dictKeys d := by
  induction d with
  | nil => simp [dictGet, dictKeys]
  | cons p rest ih =>
    obtain ⟨k0, l0⟩ := p
    by_cases h0 : k0 = k
    · subst h0; simp [dictGet, dictKeys]
    · simp [dictGet, dictKeys, h0, Ne.symm h0, ih]

theorem dictGet_mem {d : StrDict} {k : String} {l : List Values}
    (h : dictGet d k = some l) : (k, l) ∈ d := by
  induction d with
  | nil => simp [dictGet] at h
  | cons p rest ih =>
    obtain ⟨k0, l0⟩ := p
    by_cases h0 : k0 = k
    · subst h0
      simp [dictGet] at h
      simp [h]
    · simp only [dictGet, h0, if_false] at h
      exact List.mem_cons_of_mem _ (ih h)

theorem nodup_dictKeys_pushRec {d : StrDict} (h : (dictKeys d).Nodup)
    (k : String) (v : Values) : (dictKeys (dictPushRec d k v)).Nodup := by
  rw [dictKeys_pushRec]
  by_cases hs : (dictGet d k).isSome
  · simpa [hs]
  · have hk : k ∉ dictKeys d := fun hm => hs ((dictGet_isSome_iff_mem d k).mpr hm)
    simp [hs]
    simpa [List.nodup_append] using ⟨h, hk⟩

theorem nonempty_dictPushRec {d : StrDict} (h : ∀ p ∈ d, p.2 ≠ [])
    (k : String) (v : Values) : ∀ p ∈ dictPushRec d k v, p.2 ≠ [] := by
  induction d with
  | nil =>
    intro p hp
    simp [dictPushRec] at hp
    subst hp; simp
  | cons q rest ih =>
    obtain ⟨k0, l0⟩ := q
    intro p hp
    by_cases h0 : k0 = k
    · subst h0
      simp [dictPushRec] at hp
      rcases hp with hp | hp
      · subst hp; simp
      · exact h p (List.mem_cons_of_mem _ hp)
    · simp [dictPushRec, h0] at hp
      rcases hp with hp | hp
      · subst hp
        exact h (k0, l0) (List.mem_cons_self _ _)
      · exact ih (fun q hq => h q (List.mem_cons_of_mem _ hq)) p hp

/-! ## Counting records that carry a given identifier -/

theorem countIdD_nil (sid : String) : countIdD [] sid = 0 := rfl

theorem countIdD_pushRec (d : StrDict) (k : String) (v : Values) (sid : String) :
    countIdD (dictPushRec d k v) sid =
      countIdD d sid + (if hasId sid v then 1 else 0) := by
  induction d with
  | nil => simp [countIdD, dictPushRec, allRecords, List.countP_cons]
  | cons p rest ih =>
    obtain ⟨k0, l0⟩ := p
    by_cases h0 : k0 = k
    · subst h0
      simp [countIdD, dictPushRec, allRecords, List.countP_append, List.countP_cons]
      omega
    · simp only [countIdD, allRecords, dictPushRec, h0, if_false, List.map_cons,
        List.flatten_cons, List.countP_append] at *
      omega

theorem countIdD_pushAll (recs : List Values) (d : StrDict) (sid : String) :
    countIdD (recs.foldl (fun r v => dictPushRec r ((getv v "soc_name").getD "") v) d) sid =
      countIdD d sid + recs.countP (hasId sid) := by
  induction recs generalizing d with
  | nil => simp [List.countP_nil]
  | cons v rest ih =>
    show countIdD (rest.foldl _ (dictPushRec d ((getv v "soc_name").getD "") v)) sid = _
    rw [ih, countIdD_pushRec, List.countP_cons]
    by_cases h : hasId sid v <;> simp [h] <;> omega

/-! ## Field lemmas for get_socrata_data -/

theorem getv_copyIfPresent_other (m : Values) (key : String) (out : Values)
    {field k : String} (h : k ≠ field) :
    getv (copyIfPresent m key out field) k = getv out k := by
  unfold copyIfPresent
  split
  · rw [getv_setv_ne _ _ h]
  · rfl

theorem getv_copyIfPresent_self (m : Values) (key : String) (out : Values)
    {field : String} {d : String} (hbase : getv out field = some d) :
    getv (copyIfPresent m key out field) field = some ((getv m key).getD d) := by
  unfold copyIfPresent
  split
  · rename_i x heq
    rw [getv_setv_self, heq]
    rfl
  · rename_i heq
    rw [hbase, heq]
    rfl

theorem isSome_getv_copyIfPresent (m : Values) (key : String) (out : Values)
    (field k : String) (h : (getv out k).isSome) :
    (getv (copyIfPresent m key out field) k).isSome := by
  unfold copyIfPresent
  split
  · exact isSome_getv_setv _ _ _ _ h
  · exact h

theorem getv_get_socrata_data_other (soc : String → SocResult) (sid k : String)
    (h1 : k ≠ "soc_name") (h2 : k ≠ "soc_homepage") (h3 : k ≠ "soc_description")
    (h4 : k ≠ "socrata_meta") : getv (get_socrata_data soc sid) k = none := by
  unfold get_socrata_data
  dsimp only
  split
  · rw [getv_setv_ne _ _ h4]; simp [getv, Ne.symm h1, Ne.symm h2, Ne.symm h3]
  · split
    · rw [getv_setv_ne _ _ h4]; simp [getv, Ne.symm h1, Ne.symm h2, Ne.symm h3]
    · split
      · rw [getv_setv_ne _ _ h4, getv_copyIfPresent_other _ _ _ h1]
        simp [getv, Ne.symm h1, Ne.symm h2, Ne.symm h3]
      · rw [getv_setv_ne _ _ h4, getv_copyIfPresent_other _ _ _ h3,
          getv_copyIfPresent_other _ _ _ h2, getv_copyIfPresent_other _ _ _ h1]
        simp [getv, Ne.symm h1, Ne.symm h2, Ne.symm h3]

theorem get_socrata_data_fields (soc : String → SocResult) (sid : String) :
    (getv (get_socrata_data soc sid) "soc_name").isSome ∧
    (getv (get_socrata_data soc sid) "soc_homepage").isSome ∧
    (getv (get_socrata_data soc sid) "soc_description").isSome ∧
    (getv (get_socrata_data soc sid) "socrata_meta").isSome := by
  unfold get_socrata_data
  dsimp only
  split
  · simp [getv_setv, getv]
  · split
    · simp [getv_setv, getv]
    · split
      · refine ⟨?_, ?_, ?_, ?_⟩
        · exact isSome_getv_setv _ _ _ _ (isSome_getv_copyIfPresent _ _ _ _ _ (by simp [getv]))
        · exact isSome_getv_setv _ _ _ _ (isSome_getv_copyIfPresent _ _ _ _ _ (by simp [getv]))
        · exact isSome_getv_setv _ _ _ _ (isSome_getv_copyIfPresent _ _ _ _ _ (by simp [getv]))
        · rw [getv_setv_self]; rfl
      · refine ⟨?_, ?_, ?_, ?_⟩
        · exact isSome_getv_setv _ _ _ _ (isSome_getv_copyIfPresent _ _ _ _ _
            (isSome_getv_copyIfPresent _ _ _ _ _ (isSome_getv_copyIfPresent _ _ _ _ _
              (by simp [getv]))))
        · exact isSome_getv_setv _ _ _ _ (isSome_getv_copyIfPresent _ _ _ _ _
            (isSome_getv_copyIfPresent _ _ _ _ _ (isSome_getv_copyIfPresent _ _ _ _ _
              (by simp [getv]))))
        · exact isSome_getv_setv _ _ _ _ (isSome_getv_copyIfPresent _ _ _ _ _
            (isSome_getv_copyIfPresent _ _ _ _ _ (isSome_getv_copyIfPresent _ _ _ _ _
              (by simp [getv]))))
        · rw [getv_setv_self]; rfl

/-! ## assembleSnapshots lemmas -/

theorem assembleSnapshots_nil (v : Values) : assembleSnapshots v [] = v := rfl

theorem assembleSnapshots_cons (v : Values) (r : Values) (rs : List Values) :
    assembleSnapshots v (r :: rs) =
      assembleSnapshots
        (setv (setv v "dataset_snapshot_filename" ((getv r "download_filename").getD ""))
          "dataset_snapshot_dl_ts" ((getv r "download_ts").getD "")) rs := rfl

theorem getv_assembleSnapshots_other (l : List Values) (v : Values) (k : String)
    (h1 : k ≠ "dataset_snapshot_filename") (h2 : k ≠ "dataset_snapshot_dl_ts") :
    getv (assembleSnapshots v l) k = getv v k := by
  induction l generalizing v with
  | nil => rfl
  | cons r rs ih =>
    rw [assembleSnapshots_cons, ih, getv_setv_ne _ _ h2, getv_setv_ne _ _ h1]

theorem assembleSnapshots_last {l : List Values} {r : Values} (h : l.getLast? = some r)
    (v : Values) :
    getv (assembleSnapshots v l) "dataset_snapshot_filename" =
        some ((getv r "download_filename").getD "") ∧
      getv (assembleSnapshots v l) "dataset_snapshot_dl_ts" =
        some ((getv r "download_ts").getD "") := by
  induction l generalizing v with
  | nil => simp at h
  | cons a as ih =>
    cases as with
    | nil =>
      simp at h
      subst h
      rw [assembleSnapshots_cons, assembleSnapshots_nil]
      constructor
      · rw [getv_setv_ne _ _ (by decide), getv_setv_self]
      · rw [getv_setv_self]
    | cons b bs =>
      have h2 : (b :: bs).getLast? = some r := by
        simpa [List.getLast?_cons_cons] using h
      rw [assembleSnapshots_cons]
      exact ih h2 _

/-! ## Sorting lemmas -/

theorem listLe_refl : ∀ a : List Char, listLe a a = true
  | [] => rfl
  | c :: rest => by simp [listLe, listLe_refl rest]

theorem listLe_total : ∀ a b : List Char, listLe a b = true ∨ listLe b a = true
  | [], _ => Or.inl rfl
  | _ :: _, [] => Or.inr rfl
  | a :: as, b :: bs => by
    by_cases h1 : a.toNat < b.toNat
    · left; simp [listLe, h1]
    · by_cases h2 : b.toNat < a.toNat
      · right; simp [listLe, h2]
      · have := listLe_total as bs
        rcases this with h | h
        · left; simp [listLe, h1, h2, h]
        · right; simp [listLe, h1, h2, h]

theorem listLe_trans : ∀ a b c : List Char,
    listLe a b = true → listLe b c = true → listLe a c = true
  | [], _, _, _, _ => rfl
  | a :: as, [], c, h1, _ => by simp [listLe] at h1
  | a :: as, b :: bs, [], _, h2 => by simp [listLe] at h2
  | a :: as, b :: bs, c :: cs, h1, h2 => by
    simp only [listLe] at h1 h2 ⊢
    by_cases hab : a.toNat < b.toNat
    · by_cases hbc : b.toNat < c.toNat
      · simp [show a.toNat < c.toNat by omega]
      · by_cases hcb : c.toNat < b.toNat
        · simp [hbc, hcb] at h2
        · simp [show a.toNat < c.toNat by omega]
    · by_cases hba : b.toNat < a.toNat
      · simp [hab, hba] at h1
      · by_cases hbc : b.toNat < c.toNat
        · simp [show a.toNat < c.toNat by omega]
        · by_cases hcb : c.toNat < b.toNat
          · simp [hbc, hcb] at h2
          · simp only [hab, hba, if_false] at h1
            simp only [hbc, hcb, if_false] at h2
            simp only [show ¬ a.toNat < c.toNat by omega,
              show ¬ c.toNat < a.toNat by omega, if_false]
            exact listLe_trans as bs cs h1 h2

theorem strLe_refl (a : String) : strLe a a = true := listLe_refl a.data

theorem strLe_total (a b : String) : strLe a b = true ∨ strLe b a = true :=
  listLe_total a.data b.data

theorem strLe_trans {a b c : String} (h1 : strLe a b = true) (h2 : strLe b c = true) :
    strLe a c = true :=
  listLe_trans a.data b.data c.data h1 h2

theorem insertBy_perm (le : α → α → Bool) (x : α) :
    ∀ l : List α, (insertBy le x l).Perm (x :: l)
  | [] => List.Perm.refl _
  | y :: ys => by
    by_cases h : le y x
    · simp only [insertBy, h, if_true]
      exact ((insertBy_perm le x ys).cons y).trans (List.Perm.swap x y ys)
    · simp [insertBy, h]

theorem sortBy_perm_aux (le : α → α → Bool) :
    ∀ (l acc : List α), (l.foldl (fun a x => insertBy le x a) acc).Perm (acc ++ l)
  | [], acc => by simp
  | x :: xs, acc => by
    show (xs.foldl (fun a x => insertBy le x a) (insertBy le x acc)).Perm _
    refine (sortBy_perm_aux le xs (insertBy le x acc)).trans ?_
    refine (List.Perm.append_right xs ((insertBy_perm le x acc))).trans ?_
    exact List.perm_middle.symm.trans (by simp [List.perm_middle])

theorem sortBy_perm (le : α → α → Bool) (l : List α) : (sortBy le l).Perm l := by
  simpa using sortBy_perm_aux le l []

theorem mem_insertBy {le : α → α → Bool} {x a : α} {l : List α}
    (h : a ∈ insertBy le x l) : a = x ∨ a ∈ l := by
  have := (insertBy_perm le x l).mem_iff.mp h
  simpa using this

theorem pairwise_insertBy {le : α → α → Bool}
    (htot : ∀ a b, le a b = true ∨ le b a = true)
    (htr : ∀ a b c, le a b = true → le b c = true → le a c = true)
    {l : List α} (h : l.Pairwise (fun a b => le a b = true)) (x : α) :
    (insertBy le x l).Pairwise (fun a b => le a b = true) := by
  induction l with
  | nil => simp [insertBy]
  | cons y ys ih =>
    rcases h with _ | ⟨hy, hys⟩
    by_cases hle : le y x
    · simp only [insertBy, hle, if_true]
      refine List.Pairwise.cons ?_ (ih hys)
      intro a ha
      rcases mem_insertBy ha with rfl | ha
      · exact hle
      · exact hy a ha
    · have hxy : le x y = true := by
        rcases htot x y with h | h
        · exact h
        · exact absurd h hle
      simp only [insertBy, hle, if_false]
      refine List.Pairwise.cons ?_ (List.Pairwise.cons hy hys)
      intro a ha
      rcases List.mem_cons.mp ha with rfl | ha
      · exact hxy
      · exact htr x y a hxy (hy a ha)

theorem pairwise_sortBy {le : α → α → Bool}
    (htot : ∀ a b, le a b = true ∨ le b a = true)
    (htr : ∀ a b c, le a b = true → le b c = true → le a c = true)
    (l : List α) : (sortBy le l).Pairwise (fun a b => le a b = true) := by
  suffices h : ∀ (l acc : List α), acc.Pairwise (fun a b => le a b = true) →
      (l.foldl (fun a x => insertBy le x a) acc).Pairwise (fun a b => le a b = true) by
    exact h l [] (List.Pairwise.nil)
  intro l
  induction l with
  | nil => intro acc hacc; exact hacc
  | cons x xs ih =>
    intro acc hacc
    exact ih (insertBy le x acc) (pairwise_insertBy htot htr hacc x)

/-! ## Download index build lemmas -/

theorem takeWhile_append_stop {p : Char → Bool} {r1 : List Char} (h1 : r1.all p = true)
    {c : Char} (hc : p c = false) (r2 : List Char) :
    (r1 ++ c :: r2).takeWhile p = r1 ∧ (r1 ++ c :: r2).dropWhile p = c :: r2 := by
  induction r1 with
  | nil => simp [List.takeWhile_cons, List.dropWhile_cons, hc]
  | cons a as ih =>
    simp only [List.all_cons, Bool.and_eq_true] at h1
    have := ih h1.2
    simp [List.takeWhile_cons, List.dropWhile_cons, h1.1, this.1, this.2]

theorem parseDownloadLine_some {l : List Char} {sid : String} {d1 : List Char}
    (h : parseDownloadLine l = some (sid, d1)) :
    ∃ r1 r2, sid = String.mk (r1 ++ '-' :: r2) ∧ r1 ≠ [] ∧ r2 ≠ [] ∧
      r1.all isAlnumA = true ∧ r2.all isAlnumA = true := by
  unfold parseDownloadLine at h
  dsimp only at h
  repeat' split at h
  all_goals try exact Option.noConfusion h
  rw [Option.some.injEq, Prod.mk.injEq] at h
  obtain ⟨hsid, hd1⟩ := h
  simp only [List.isEmpty_iff] at *
  exact ⟨_, _, hsid.symm, by assumption, by assumption, List.all_takeWhile, List.all_takeWhile⟩

theorem laxIdShape_of_parse {l : List Char} {sid : String} {d1 : List Char}
    (h : parseDownloadLine l = some (sid, d1)) : laxIdShape sid = true := by
  obtain ⟨r1, r2, rfl, h1, h2, ha1, ha2⟩ := parseDownloadLine_some h
  have hc : isAlnumA '-' = false := by decide
  have hsp := takeWhile_append_stop ha1 hc r2
  unfold laxIdShape
  dsimp only
  rw [List.span_eq_take_drop]
  dsimp only
  rw [hsp.1, hsp.2]
  simp [List.isEmpty_iff, h1, h2, ha2]

theorem buildAux_get (sid : String) :
    ∀ (lines : List String) (d d2 : StrDict), buildAux lines d = .ok d2 →
      dictGet d2 sid =
        if (dictGet d sid).isSome ∨ mrecsAux sid lines ≠ [] then
          some ((dictGet d sid).getD [] ++ mrecsAux sid lines)
        else none := by
  intro lines
  induction lines with
  | nil =>
    intro d d2 h
    cases h
    cases hg : dictGet d sid <;> simp [mrecsAux, hg]
  | cons line rest ih =>
    intro d d2 h
    simp only [buildAux] at h
    cases hs : buildStep d line with
    | error e => rw [hs] at h; cases h
    | ok dmid =>
      rw [hs] at h
      have hrec := ih dmid d2 h
      unfold buildStep at hs
      cases hp : parseDownloadLine line.data with
      | none =>
        rw [hp] at hs
        cases hs
        rw [hrec]
        simp [mrecsAux, List.filterMap_cons, hp]
      | some pr =>
        obtain ⟨s, intDigits⟩ := pr
        rw [hp] at hs
        dsimp only at hs
        split at hs
        · cases hs
          by_cases hss : s = sid
          · subst hss
            rw [hrec]
            have hmid := dictGet_pushRec_self d s (mkDownloadRecord line (digitsToNat intDigits))
            rw [hmid]
            have hm : mrecsAux s (line :: rest) =
                mkDownloadRecord line (digitsToNat intDigits) :: mrecsAux s rest := by
              simp [mrecsAux, List.filterMap_cons, hp]
            rw [hm]
            simp [List.append_assoc]
          · rw [hrec]
            have hmid : dictGet (dictPushRec d s (mkDownloadRecord line (digitsToNat intDigits))) sid
                = dictGet d sid := by
              rw [dictGet_pushRec, if_neg (fun hh => hss hh.symm)]
            rw [hmid]
            have hm : mrecsAux sid (line :: rest) = mrecsAux sid rest := by
              simp [mrecsAux, List.filterMap_cons, hp, hss]
            rw [hm]
        · cases hs

theorem build_get {ls : List String} {dl : StrDict} (sid : String)
    (hb : build_download_file_dict ls = .ok dl) :
    dictGet dl sid =
      if matchingRecords sid ls = [] then none else some (matchingRecords sid ls) := by
  have h := buildAux_get sid (takeLines ls) [] dl hb
  rw [show dictGet ([] : StrDict) sid = none from rfl] at h
  simp only [Option.isSome_none, Bool.false_eq_true, false_or, Option.getD_none,
    List.nil_append] at h
  rw [h, matchingRecords]
  by_cases hm : mrecsAux sid (takeLines ls) = [] <;> simp [hm]

theorem buildAux_nodup : ∀ (lines : List String) (d d2 : StrDict),
    buildAux lines d = .ok d2 → (dictKeys d).Nodup → (dictKeys d2).Nodup := by
  intro lines
  induction lines with
  | nil => intro d d2 h hd; cases h; exact hd
  | cons line rest ih =>
    intro d d2 h hd
    simp only [buildAux] at h
    cases hs : buildStep d line with
    | error e => rw [hs] at h; cases h
    | ok dmid =>
      rw [hs] at h
      refine ih dmid d2 h ?_
      unfold buildStep at hs
      cases hp : parseDownloadLine line.data with
      | none => rw [hp] at hs; cases hs; exact hd
      | some pr =>
        rw [hp] at hs
        dsimp only at hs
        split at hs
        · cases hs; exact nodup_dictKeys_pushRec hd _ _
        · cases hs

theorem buildAux_nonempty : ∀ (lines : List String) (d d2 : StrDict),
    buildAux lines d = .ok d2 → (∀ p ∈ d, p.2 ≠ []) → ∀ p ∈ d2, p.2 ≠ [] := by
  intro lines
  induction lines with
  | nil => intro d d2 h hd; cases h; exact hd
  | cons line rest ih =>
    intro d d2 h hd
    simp only [buildAux] at h
    cases hs : buildStep d line with
    | error e => rw [hs] at h; cases h
    | ok dmid =>
      rw [hs] at h
      refine ih dmid d2 h ?_
      unfold buildStep at hs
      cases hp : parseDownloadLine line.data with
      | none => rw [hp] at hs; cases hs; exact hd
      | some pr =>
        rw [hp] at hs
        dsimp only at hs
        split at hs
        · cases hs; exact nonempty_dictPushRec hd _ _
        · cases hs

theorem buildAux_keyshape : ∀ (lines : List String) (d d2 : StrDict),
    buildAux lines d = .ok d2 → (∀ k ∈ dictKeys d, laxIdShape k = true) →
    ∀ k ∈ dictKeys d2, laxIdShape k = true := by
  intro lines
  induction lines with
  | nil => intro d d2 h hd; cases h; exact hd
  | cons line rest ih =>
    intro d d2 h hd
    simp only [buildAux] at h
    cases hs : buildStep d line with
    | error e => rw [hs] at h; cases h
    | ok dmid =>
      rw [hs] at h
      refine ih dmid d2 h ?_
      unfold buildStep at hs
      cases hp : parseDownloadLine line.data with
      | none => rw [hp] at hs; cases hs; exact hd
      | some pr =>
        obtain ⟨s, intDigits⟩ := pr
        rw [hp] at hs
        dsimp only at hs
        split at hs
        · cases hs
          intro k hk
          rw [dictKeys_pushRec] at hk
          by_cases hg : (dictGet d s).isSome
          · rw [if_pos hg] at hk; exact hd k hk
          · rw [if_neg hg] at hk
            rcases List.mem_append.mp hk with hk | hk
            · exact hd k hk
            · have : k = s := by simpa using hk
              subst this
              exact laxIdShape_of_parse hp
        · cases hs

/-! ## Engine record lemmas -/

theorem getv_updatev_soc_other (v : Values) (soc : String → SocResult) (sid : String)
    {k : String} (h1 : k ≠ "soc_name") (h2 : k ≠ "soc_homepage")
    (h3 : k ≠ "soc_description") (h4 : k ≠ "socrata_meta") :
    getv (updatev v (get_socrata_data soc sid)) k = getv v k :=
  getv_updatev_of_none (getv_get_socrata_data_other soc sid k h1 h2 h3 h4) v

theorem isSome_updatev_soc (v : Values) (soc : String → SocResult) (sid : String) :
    (getv (updatev v (get_socrata_data soc sid)) "soc_name").isSome ∧
    (getv (updatev v (get_socrata_data soc sid)) "soc_homepage").isSome ∧
    (getv (updatev v (get_socrata_data soc sid)) "soc_description").isSome ∧
    (getv (updatev v (get_socrata_data soc sid)) "socrata_meta").isSome :=
  ⟨isSome_getv_updatev_right v (get_socrata_data_fields soc sid).1,
   isSome_getv_updatev_right v (get_socrata_data_fields soc sid).2.1,
   isSome_getv_updatev_right v (get_socrata_data_fields soc sid).2.2.1,
   isSome_getv_updatev_right v (get_socrata_data_fields soc sid).2.2.2⟩

theorem mainEntryStep_spec (soc : String → SocResult) (ia : String → String) (dl : StrDict)
    (hne : ∀ p ∈ dl, p.2 ≠ []) (st : MainState) (sid homepage : String) :
    ∃ v, (mainEntryStep soc ia dl st sid homepage).results =
        dictPushRec st.results ((getv v "soc_name").getD "") v ∧
      getv v "socrata_id" = some sid ∧
      fieldsOk v = true ∧
      (getv v "soc_name").isSome ∧
      (mainEntryStep soc ia dl st sid homepage).processed =
        (if (dictGet dl sid).isSome then st.processed ++ [sid] else st.processed) := by
  have hid2 : ∀ w : Values, getv
      (updatev (setv (setv (setv w "socrata_id" sid) "homepage" homepage)
        "internet_archive_snapshots" (ia homepage)) (get_socrata_data soc sid))
      "socrata_id" = some sid := by
    intro w
    rw [getv_updatev_soc_other _ soc sid (by decide) (by decide) (by decide) (by decide),
      getv_setv_ne _ _ (by decide), getv_setv_ne _ _ (by decide), getv_setv_self]
  have hhp2 : ∀ w : Values, getv
      (updatev (setv (setv (setv w "socrata_id" sid) "homepage" homepage)
        "internet_archive_snapshots" (ia homepage)) (get_socrata_data soc sid))
      "homepage" = some homepage := by
    intro w
    rw [getv_updatev_soc_other _ soc sid (by decide) (by decide) (by decide) (by decide),
      getv_setv_ne _ _ (by decide), getv_setv_self]
  have hia2 : ∀ w : Values, getv
      (updatev (setv (setv (setv w "socrata_id" sid) "homepage" homepage)
        "internet_archive_snapshots" (ia homepage)) (get_socrata_data soc sid))
      "internet_archive_snapshots" = some (ia homepage) := by
    intro w
    rw [getv_updatev_soc_other _ soc sid (by decide) (by decide) (by decide) (by decide),
      getv_setv_self]
  unfold mainEntryStep
  dsimp only
  cases hdl : dictGet dl sid with
  | none =>
    refine ⟨_, rfl, ?_, ?_, ?_, by simp [hdl]⟩
    · rw [getv_setv_ne _ _ (by decide), getv_setv_ne _ _ (by decide)]
      exact hid2 []
    · simp only [fieldsOk, reportFields, List.all_cons, List.all_nil, Bool.and_eq_true,
        Bool.and_true]
      refine ⟨?_, ?_, ?_, ?_, ?_, ?_, ?_, ?_⟩
      · rw [getv_setv_ne _ _ (by decide), getv_setv_ne _ _ (by decide), hid2 []]; rfl
      · rw [getv_setv_ne _ _ (by decide), getv_setv_ne _ _ (by decide), hhp2 []]; rfl
      · rw [getv_setv_ne _ _ (by decide), getv_setv_ne _ _ (by decide), hia2 []]; rfl
      · exact isSome_getv_setv _ _ _ _ (isSome_getv_setv _ _ _ _ (isSome_updatev_soc _ soc sid).1)
      · exact isSome_getv_setv _ _ _ _
          (isSome_getv_setv _ _ _ _ (isSome_updatev_soc _ soc sid).2.2.1)
      · exact isSome_getv_setv _ _ _ _
          (isSome_getv_setv _ _ _ _ (isSome_updatev_soc _ soc sid).2.2.2)
      · rw [getv_setv_ne _ _ (by decide), getv_setv_self]; rfl
      · rw [getv_setv_self]; rfl
    · exact isSome_getv_setv _ _ _ _ (isSome_getv_setv _ _ _ _ (isSome_updatev_soc _ soc sid).1)
  | some l =>
    have hlne : l ≠ [] := hne _ (dictGet_mem hdl)
    have hlast : ∃ r, l.getLast? = some r := by
      cases hl : l.getLast? with
      | none => exact absurd (List.getLast?_eq_none_iff.mp hl) hlne
      | some r => exact ⟨r, rfl⟩
    obtain ⟨r, hr⟩ := hlast
    have hsnap := assembleSnapshots_last hr
      (updatev (setv (setv (setv [] "socrata_id" sid) "homepage" homepage)
        "internet_archive_snapshots" (ia homepage)) (get_socrata_data soc sid))
    refine ⟨_, rfl, ?_, ?_, ?_, by simp [hdl]⟩
    · rw [getv_assembleSnapshots_other _ _ _ (by decide) (by decide)]
      exact hid2 []
    · simp only [fieldsOk, reportFields, List.all_cons, List.all_nil, Bool.and_eq_true,
        Bool.and_true]
      refine ⟨?_, ?_, ?_, ?_, ?_, ?_, ?_, ?_⟩
      · rw [getv_assembleSnapshots_other _ _ _ (by decide) (by decide), hid2 []]; rfl
      · rw [getv_assembleSnapshots_other _ _ _ (by decide) (by decide), hhp2 []]; rfl
      · rw [getv_assembleSnapshots_other _ _ _ (by decide) (by decide), hia2 []]; rfl
      · rw [getv_assembleSnapshots_other _ _ _ (by decide) (by decide)]
        exact (isSome_updatev_soc _ soc sid).1
      · rw [getv_assembleSnapshots_other _ _ _ (by decide) (by decide)]
        exact (isSome_updatev_soc _ soc sid).2.2.1
      · rw [getv_assembleSnapshots_other _ _ _ (by decide) (by decide)]
        exact (isSome_updatev_soc _ soc sid).2.2.2
      · rw [hsnap.1]; rfl
      · rw [hsnap.2]; rfl
    · rw [getv_assembleSnapshots_other _ _ _ (by decide) (by decide)]
      exact (isSome_updatev_soc _ soc sid).1

theorem leftoverRecord_spec (soc : String → SocResult) (ia : String → String)
    (sid : String) (recs : List Values) (hne : recs ≠ []) :
    getv (leftoverRecord soc ia sid recs).1 "socrata_id" = some sid ∧
    fieldsOk (leftoverRecord soc ia sid recs).1 = true ∧
    (getv (leftoverRecord soc ia sid recs).1 "soc_name").isSome := by
  have hlast : ∃ r, recs.getLast? = some r := by
    cases hl : recs.getLast? with
    | none => exact absurd (List.getLast?_eq_none_iff.mp hl) hne
    | some r => exact ⟨r, rfl⟩
  obtain ⟨r, hr⟩ := hlast
  unfold leftoverRecord
  dsimp only
  have hid0 : getv (updatev (setv (setv [] "socrata_id" sid) "homepage" "")
      (get_socrata_data soc sid)) "socrata_id" = some sid := by
    rw [getv_updatev_soc_other _ soc sid (by decide) (by decide) (by decide) (by decide),
      getv_setv_ne _ _ (by decide), getv_setv_self]
  split
  case h_2 =>
    dsimp only
    have hsnap := assembleSnapshots_last hr (setv (updatev (setv (setv [] "socrata_id" sid)
      "homepage" "") (get_socrata_data soc sid)) "internet_archive_snapshots" "")
    refine ⟨?_, ?_, ?_⟩
    · rw [getv_assembleSnapshots_other _ _ _ (by decide) (by decide),
        getv_setv_ne _ _ (by decide), hid0]
    · simp only [fieldsOk, reportFields, List.all_cons, List.all_nil, Bool.and_eq_true,
        Bool.and_true]
      refine ⟨?_, ?_, ?_, ?_, ?_, ?_, ?_, ?_⟩
      · rw [getv_assembleSnapshots_other _ _ _ (by decide) (by decide),
          getv_setv_ne _ _ (by decide), hid0]; rfl
      · rw [getv_assembleSnapshots_other _ _ _ (by decide) (by decide),
          getv_setv_ne _ _ (by decide),
          getv_updatev_soc_other _ soc sid (by decide) (by decide) (by decide) (by decide),
          getv_setv_self]
        rfl
      · rw [getv_assembleSnapshots_other _ _ _ (by decide) (by decide), getv_setv_self]; rfl
      · rw [getv_assembleSnapshots_other _ _ _ (by decide) (by decide)]
        exact isSome_getv_setv _ _ _ _ (isSome_updatev_soc _ soc sid).1
      · rw [getv_assembleSnapshots_other _ _ _ (by decide) (by decide)]
        exact isSome_getv_setv _ _ _ _ (isSome_updatev_soc _ soc sid).2.2.1
      · rw [getv_assembleSnapshots_other _ _ _ (by decide) (by decide)]
        exact isSome_getv_setv _ _ _ _ (isSome_updatev_soc _ soc sid).2.2.2
      · rw [hsnap.1]; rfl
      · rw [hsnap.2]; rfl
    · rw [getv_assembleSnapshots_other _ _ _ (by decide) (by decide)]
      exact isSome_getv_setv _ _ _ _ (isSome_updatev_soc _ soc sid).1
  case h_1 =>
    rename_i h heq
    dsimp only
    have hsnap := assembleSnapshots_last hr (setv (setv (setv (updatev (setv (setv []
      "socrata_id" sid) "homepage" "") (get_socrata_data soc sid))
      "internet_archive_snapshots" "") "internet_archive_snapshots" (ia h)) "homepage" h)
    refine ⟨?_, ?_, ?_⟩
    · rw [getv_assembleSnapshots_other _ _ _ (by decide) (by decide),
        getv_setv_ne _ _ (by decide), getv_setv_ne _ _ (by decide),
        getv_setv_ne _ _ (by decide), hid0]
    · simp only [fieldsOk, reportFields, List.all_cons, List.all_nil, Bool.and_eq_true,
        Bool.and_true]
      refine ⟨?_, ?_, ?_, ?_, ?_, ?_, ?_, ?_⟩
      · rw [getv_assembleSnapshots_other _ _ _ (by decide) (by decide),
          getv_setv_ne _ _ (by decide), getv_setv_ne _ _ (by decide),
          getv_setv_ne _ _ (by decide), hid0]; rfl
      · rw [getv_assembleSnapshots_other _ _ _ (by decide) (by decide), getv_setv_self]; rfl
      · rw [getv_assembleSnapshots_other _ _ _ (by decide) (by decide),
          getv_setv_ne _ _ (by decide), getv_setv_self]; rfl
      · rw [getv_assembleSnapshots_other _ _ _ (by decide) (by decide),
          getv_setv_ne _ _ (by decide), getv_setv_ne _ _ (by decide)]
        exact isSome_getv_setv _ _ _ _ (isSome_updatev_soc _ soc sid).1
      · rw [getv_assembleSnapshots_other _ _ _ (by decide) (by decide),
          getv_setv_ne _ _ (by decide), getv_setv_ne _ _ (by decide)]
        exact isSome_getv_setv _ _ _ _ (isSome_updatev_soc _ soc sid).2.2.1
      · rw [getv_assembleSnapshots_other _ _ _ (by decide) (by decide),
          getv_setv_ne _ _ (by decide), getv_setv_ne _ _ (by decide)]
        exact isSome_getv_setv _ _ _ _ (isSome_updatev_soc _ soc sid).2.2.2
      · rw [hsnap.1]; rfl
      · rw [hsnap.2]; rfl
    · rw [getv_assembleSnapshots_other _ _ _ (by decide) (by decide),
        getv_setv_ne _ _ (by decide), getv_setv_ne _ _ (by decide)]
      exact isSome_getv_setv _ _ _ _ (isSome_updatev_soc _ soc sid).1

/-! ## Run-level inductions -/

theorem resultsInv_pushRec {d : StrDict} (hd : ResultsInv d) {v : Values} {n : String}
    (hv : fieldsOk v = true) (hn : getv v "soc_name" = some n) :
    ResultsInv (dictPushRec d n v) := by
  induction d with
  | nil =>
    intro p hp
    simp [dictPushRec] at hp
    subst hp
    intro w hw
    simp at hw
    subst hw
    exact ⟨hv, hn⟩
  | cons q rest ih =>
    obtain ⟨k0, l0⟩ := q
    intro p hp
    by_cases h0 : k0 = n
    · subst h0
      simp [dictPushRec] at hp
      rcases hp with hp | hp
      · subst hp
        intro w hw
        rcases List.mem_append.mp hw with hw | hw
        · exact hd (k0, l0) (List.mem_cons_self _ _) w hw
        · have hw2 : w = v := by simpa using hw
          subst hw2
          exact ⟨hv, hn⟩
      · exact hd p (List.mem_cons_of_mem _ hp)
    · simp only [dictPushRec, h0, if_false] at hp
      rcases List.mem_cons.mp hp with hp | hp
      · subst hp
        exact hd (k0, l0) (List.mem_cons_self _ _)
      · exact ih (fun q hq => hd q (List.mem_cons_of_mem _ hq)) p hp

theorem runMainPass_inv (soc : String → SocResult) (ia : String → String) (dl : StrDict)
    (hne : ∀ p ∈ dl, p.2 ≠ []) :
    ∀ (lines : List String) (st st' : MainState),
      runMainPass soc ia dl lines st = .ok st' →
      ResultsInv st.results → ResultsInv st'.results := by
  intro lines
  induction lines with
  | nil => intro st st' h hInv; cases h; exact hInv
  | cons raw rest ih =>
    intro st st' h hInv
    simp only [runMainPass] at h
    cases hg : get_next_homepage_url_line raw with
    | eof => rw [hg] at h; cases h; exact hInv
    | valueError => rw [hg] at h; cases h
    | entry osid hp =>
      rw [hg] at h
      cases osid with
      | none => exact ih _ _ h hInv
      | some s =>
        obtain ⟨v, hres, hid, hok, hname, hproc⟩ := mainEntryStep_spec soc ia dl hne st s hp
        refine ih _ _ h ?_
        rw [hres]
        obtain ⟨x, hx⟩ := Option.isSome_iff_exists.mp hname
        have hn2 : getv v "soc_name" = some ((getv v "soc_name").getD "") := by
          rw [hx]; rfl
        exact resultsInv_pushRec hInv hok hn2

theorem runMainPass_count (soc : String → SocResult) (ia : String → String) (dl : StrDict)
    (hne : ∀ p ∈ dl, p.2 ≠ []) (sid : String) (hs : (dictGet dl sid).isSome) :
    ∀ (lines : List String) (st st' : MainState),
      runMainPass soc ia dl lines st = .ok st' →
      countIdD st'.results sid = countIdD st.results sid + entriesCount sid lines ∧
      (sid ∈ st'.processed ↔ sid ∈ st.processed ∨ 0 < entriesCount sid lines) := by
  intro lines
  induction lines with
  | nil => intro st st' h; cases h; simp [entriesCount]
  | cons raw rest ih =>
    intro st st' h
    simp only [runMainPass] at h
    cases hg : get_next_homepage_url_line raw with
    | eof =>
      rw [hg] at h; cases h
      simp [entriesCount, hg]
    | valueError => rw [hg] at h; cases h
    | entry osid hp =>
      rw [hg] at h
      cases osid with
      | none =>
        have hrec := ih st st' h
        simp only [entriesCount, hg]
        exact hrec
      | some s =>
        obtain ⟨v, hres, hid, hok, hname, hproc⟩ := mainEntryStep_spec soc ia dl hne st s hp
        have hrec := ih _ st' h
        have hcount2 : countIdD (mainEntryStep soc ia dl st s hp).results sid =
            countIdD st.results sid + (if s = sid then 1 else 0) := by
          rw [hres, countIdD_pushRec]
          congr 1
          by_cases hss : s = sid
          · subst hss; simp [hasId, hid]
          · simp [hasId, hid, hss]
        have hmem2 : sid ∈ (mainEntryStep soc ia dl st s hp).processed ↔
            (sid ∈ st.processed ∨ s = sid) := by
          rw [hproc]
          by_cases hss : s = sid
          · subst hss
            simp [hs]
          · have hss2 : ¬ sid = s := fun hh => hss hh.symm
            split
            · simp [List.mem_append, hss, hss2]
            · simp [hss, hss2]
        simp only [entriesCount, hg]
        constructor
        · rw [hrec.1, hcount2]
          omega
        · rw [hrec.2, hmem2]
          by_cases hss : s = sid
          · subst hss; simp
          · simp [hss]

theorem leftover_count (soc : String → SocResult) (ia : String → String) :
    ∀ (dl : StrDict) (processed : List String), (dictKeys dl).Nodup →
      (∀ p ∈ dl, p.2 ≠ []) → ∀ sid,
      (process_leftover_download_files soc ia dl processed).1.countP (hasId sid) =
        if sid ∈ dictKeys dl ∧ sid ∉ processed then 1 else 0 := by
  intro dl
  induction dl with
  | nil =>
    intro processed hnd hne sid
    simp [process_leftover_download_files, dictKeys]
  | cons p rest ih =>
    obtain ⟨k, l⟩ := p
    intro processed hnd hne sid
    have hnd2 : (dictKeys rest).Nodup ∧ k ∉ dictKeys rest := by
      have : dictKeys ((k, l) :: rest) = k :: dictKeys rest := rfl
      rw [this] at hnd
      exact ⟨hnd.of_cons, (List.nodup_cons.mp hnd).1⟩
    have hne2 : ∀ q ∈ rest, q.2 ≠ [] := fun q hq => hne q (List.mem_cons_of_mem _ hq)
    have hmemk : sid ∈ dictKeys ((k, l) :: rest) ↔ sid = k ∨ sid ∈ dictKeys rest := by
      show sid ∈ k :: dictKeys rest ↔ _
      simp
    simp only [process_leftover_download_files]
    by_cases hc : processed.contains k
    · rw [if_pos hc, ih processed hnd2.1 hne2 sid]
      have hkp : k ∈ processed := List.elem_iff.mp hc
      by_cases hss : sid = k
      · subst hss
        simp [hmemk, hkp, hnd2.2]
      · by_cases hmem : sid ∈ dictKeys rest <;> simp [hmemk, hss, hmem]
    · rw [if_neg hc]
      have hlne : l ≠ [] := hne (k, l) (List.mem_cons_self _ _)
      obtain ⟨hidk, _, _⟩ := leftoverRecord_spec soc ia k l hlne
      rw [List.countP_cons, ih processed hnd2.1 hne2 sid]
      have hkp : k ∉ processed := fun hm => hc (List.elem_iff.mpr hm)
      by_cases hss : sid = k
      · subst hss
        have hone : hasId sid (leftoverRecord soc ia sid l).1 = true := by
          simp [hasId, hidk]
        simp [hmemk, hkp, hnd2.2, hone]
      · have hzero : hasId sid (leftoverRecord soc ia k l).1 = true ↔ False := by
          simp [hasId, hidk]
          exact fun hh => hss hh.symm
        by_cases hmem : sid ∈ dictKeys rest
        · simp [hmemk, hss, hmem, hkp, hzero]
        · simp [hmemk, hss, hmem, hzero]

theorem leftover_inv (soc : String → SocResult) (ia : String → String) :
    ∀ (dl : StrDict) (processed : List String), (∀ p ∈ dl, p.2 ≠ []) →
      ∀ v ∈ (process_leftover_download_files soc ia dl processed).1,
        fieldsOk v = true ∧ (getv v "soc_name").isSome := by
  intro dl
  induction dl with
  | nil => intro processed hne v hv; simp [process_leftover_download_files] at hv
  | cons p rest ih =>
    obtain ⟨k, l⟩ := p
    intro processed hne v hv
    have hne2 : ∀ q ∈ rest, q.2 ≠ [] := fun q hq => hne q (List.mem_cons_of_mem _ hq)
    simp only [process_leftover_download_files] at hv
    by_cases hc : processed.contains k
    · rw [if_pos hc] at hv
      exact ih processed hne2 v hv
    · rw [if_neg hc] at hv
      rcases List.mem_cons.mp hv with hv | hv
      · subst hv
        have hlne : l ≠ [] := hne (k, l) (List.mem_cons_self _ _)
        obtain ⟨_, hok, hname⟩ := leftoverRecord_spec soc ia k l hlne
        exact ⟨hok, hname⟩
      · exact ih processed hne2 v hv

theorem resultsInv_pushAll {recs : List Values}
    (hrecs : ∀ v ∈ recs, fieldsOk v = true ∧ (getv v "soc_name").isSome) :
    ∀ {d : StrDict}, ResultsInv d →
      ResultsInv (recs.foldl (fun r v => dictPushRec r ((getv v "soc_name").getD "") v) d) := by
  induction recs with
  | nil => intro d hd; exact hd
  | cons v rest ih =>
    intro d hd
    show ResultsInv (rest.foldl _ (dictPushRec d ((getv v "soc_name").getD "") v))
    have hv := hrecs v (List.mem_cons_self _ _)
    obtain ⟨x, hx⟩ := Option.isSome_iff_exists.mp hv.2
    have hn2 : getv v "soc_name" = some ((getv v "soc_name").getD "") := by rw [hx]; rfl
    exact ih (fun w hw => hrecs w (List.mem_cons_of_mem _ hw)) (resultsInv_pushRec hd hv.1 hn2)

/-! ## Report lemmas -/

theorem rowOf_of_fieldsOk {v : Values} (hv : fieldsOk v = true) (n : String) :
    rowOf n v = some (rowTotal n v) := by
  simp only [fieldsOk, reportFields, List.all_cons, List.all_nil, Bool.and_eq_true,
    Bool.and_true] at hv
  obtain ⟨h1, h2, h3, h4, h5, h6, h7, h8⟩ := hv
  obtain ⟨x1, hx1⟩ := Option.isSome_iff_exists.mp h1
  obtain ⟨x2, hx2⟩ := Option.isSome_iff_exists.mp h2
  obtain ⟨x3, hx3⟩ := Option.isSome_iff_exists.mp h3
  obtain ⟨x5, hx5⟩ := Option.isSome_iff_exists.mp h5
  obtain ⟨x6, hx6⟩ := Option.isSome_iff_exists.mp h6
  obtain ⟨x7, hx7⟩ := Option.isSome_iff_exists.mp h7
  obtain ⟨x8, hx8⟩ := Option.isSome_iff_exists.mp h8
  unfold rowOf rowTotal
  rw [hx1, hx2, hx3, hx5, hx6, hx7, hx8]
  rfl

theorem rowOf_head {n : String} {v : Values} {r : List String}
    (h : rowOf n v = some r) : r.head? = some n := by
  unfold rowOf at h
  repeat' split at h
  all_goals first
    | exact Option.noConfusion h
    | (rw [Option.some.injEq] at h; subst h; rfl)

theorem optAll_map_some (f : α → Option β) (g : α → β) {l : List α}
    (h : ∀ a ∈ l, f a = some (g a)) : optAll (l.map f) = some (l.map g) := by
  induction l with
  | nil => rfl
  | cons a rest ih =>
    simp only [List.map_cons, optAll]
    rw [h a (List.mem_cons_self _ _), ih (fun b hb => h b (List.mem_cons_of_mem _ hb))]
    rfl

/-- The grouped total data rows of a well-formed results dictionary. -/
def dataRowsTotal (results : StrDict) : List (List String) :=
  ((sortBy strLe (dictKeys results)).map (fun n =>
    (sortBy (fun a b => strLe (recId a) (recId b)) ((dictGet results n).getD [])).map
      (rowTotal n))).flatten

theorem dataRowsOf_eq {results : StrDict}
    (hwf : ∀ p ∈ results, ∀ v ∈ p.2, fieldsOk v = true) :
    dataRowsOf results = some (dataRowsTotal results) := by
  unfold dataRowsOf dataRowsTotal
  have hinner : ∀ n ∈ sortBy strLe (dictKeys results),
      (fun n => optAll (((sortBy (fun a b => strLe (recId a) (recId b))
          ((dictGet results n).getD [])).map (rowOf n)))) n =
        some ((fun n => (sortBy (fun a b => strLe (recId a) (recId b))
          ((dictGet results n).getD [])).map (rowTotal n)) n) := by
    intro n hn
    refine optAll_map_some (rowOf n) (rowTotal n) ?_
    intro v hv
    have hv2 : v ∈ (dictGet results n).getD [] := (sortBy_perm _ _).mem_iff.mp hv
    cases hg : dictGet results n with
    | none => rw [hg] at hv2; simp at hv2
    | some grp =>
      rw [hg] at hv2
      exact rowOf_of_fieldsOk (hwf (n, grp) (dictGet_mem hg) v hv2) n
  rw [optAll_map_some _ _ hinner]
  rfl

theorem emitReport_eq {results : StrDict}
    (hwf : ∀ p ∈ results, ∀ v ∈ p.2, fieldsOk v = true) :
    emitReport results = some (preambleRows ++ reportHeaderRow :: dataRowsTotal results) := by
  unfold emitReport
  rw [dataRowsOf_eq hwf]
  rfl

/-! ## Decomposing a completed module run -/

theorem runModule_ok_parts {soc : String → SocResult} {ia : String → String}
    {dlLines hpLines : List String} {st : RunResult}
    (h : runModule soc ia dlLines hpLines = .ok st) :
    ∃ dl mst, build_download_file_dict dlLines = .ok dl ∧
      runMainPass soc ia dl hpLines ⟨[], [], []⟩ = .ok mst ∧
      st.results = (process_leftover_download_files soc ia dl mst.processed).1.foldl
        (fun r v => dictPushRec r ((getv v "soc_name").getD "") v) mst.results ∧
      st.processed = mst.processed := by
  unfold runModule at h
  split at h
  · cases h
  · rename_i dl hbuild
    split at h
    · cases h
    · rename_i mst hmain
      dsimp only at h
      cases h
      exact ⟨dl, mst, hbuild, hmain, rfl, rfl⟩

/-! ## Claim theorems -/

/-- C1 (amended): for every identifier that is a key of the Download Index,
in a completed run the number of DatasetRecords carrying that identifier
equals max(1, number of processed homepage entries bearing it): each
main-pass occurrence appends one record and marks the identifier consumed,
and the leftover pass appends exactly one record precisely when no homepage
entry bore the identifier — so exactly one record when the identifier occurs
in at most one homepage entry, but one record per occurrence (not one in
total) when the same identifier occurs in several homepage entries. -/
theorem c1_download_ids_reflected (soc : String → SocResult) (ia : String → String)
    (dlLines hpLines : List String) (st : RunResult) (dl : StrDict) (sid : String)
    (hb : build_download_file_dict dlLines = .ok dl)
    (hs : (dictGet dl sid).isSome)
    (h : runModule soc ia dlLines hpLines = .ok st) :
    countIdD st.results sid = max 1 (entriesCount sid hpLines) := by
  obtain ⟨dl2, mst, hb2, hm, hres, hproc⟩ := runModule_ok_parts h
  rw [hb] at hb2
  cases hb2
  have hne := buildAux_nonempty (takeLines dlLines) [] dl hb
    (fun p hp => absurd hp (List.not_mem_nil p))
  have hnd := buildAux_nodup (takeLines dlLines) [] dl hb List.nodup_nil
  have hmc := runMainPass_count soc ia dl hne sid hs hpLines ⟨[], [], []⟩ mst hm
  have hlc := leftover_count soc ia dl mst.processed hnd hne sid
  have hmem : sid ∈ dictKeys dl := (dictGet_isSome_iff_mem dl sid).mp hs
  rw [hres, countIdD_pushAll, hmc.1, hlc]
  have hzero : countIdD (⟨[], [], []⟩ : MainState).results sid = 0 := rfl
  rw [hzero]
  have hiff : sid ∈ mst.processed ↔ 0 < entriesCount sid hpLines := by
    rw [hmc.2]
    simp
  by_cases hec : 0 < entriesCount sid hpLines
  · rw [if_neg (fun hand => hand.2 (hiff.mpr hec))]
    omega
  · rw [if_pos ⟨hmem, fun hmemp => hec (hiff.mp hmemp)⟩]
    omega

/-- C1 counterexample: with one download entry for identifier aaaa-bbbb and a
homepage stream naming aaaa-bbbb twice, the run appends two DatasetRecords
carrying that identifier, not exactly one as the claim states. -/
theorem c1_duplicate_homepage_counterexample :
    Except.map (fun st => countIdD st.results "aaaa-bbbb")
        (runModule socUnknown iaProbe ["aaaa-bbbb_1.5_f.csv"]
          ["s,https://h/aaaa-bbbb", "s,https://h/aaaa-bbbb"]) = .ok 2 ∧
      Except.map (fun dl => (dictGet dl "aaaa-bbbb").isSome)
        (build_download_file_dict ["aaaa-bbbb_1.5_f.csv"]) = .ok true ∧
      (2 : Nat) ≠ 1 := by
  refine ⟨by rfl, by rfl, by decide⟩

/-- Witness input: the download list of the concrete witness runs. -/
def wDlLines : List String := ["aaaa-bbbb_1.5_f.csv"]

/-- Witness input: a homepage list naming aaaa-bbbb once. -/
def wHpLines : List String := ["s,https://h/aaaa-bbbb"]

/-- The download index of the concrete witness run. -/
def wDl : StrDict := (build_download_file_dict wDlLines).toOption.getD []

/-- The final state of the concrete witness run. -/
def wSt : RunResult :=
  (runModule socUnknown iaProbe wDlLines wHpLines).toOption.getD ⟨[], [], []⟩

/-- Witness for c1_download_ids_reflected at a concrete run. -/
theorem c1_download_ids_reflected_witness :
    build_download_file_dict wDlLines = .ok wDl ∧
      (dictGet wDl "aaaa-bbbb").isSome = true ∧
      runModule socUnknown iaProbe wDlLines wHpLines = .ok wSt ∧
      countIdD wSt.results "aaaa-bbbb" = max 1 (entriesCount "aaaa-bbbb" wHpLines) :=
  ⟨by rfl, by rfl, by rfl,
    c1_download_ids_reflected socUnknown iaProbe wDlLines wHpLines wSt wDl "aaaa-bbbb"
      (by rfl) (by rfl) (by rfl)⟩

/-- C10: in every completed run, every list bound in the Download Index is
non-empty (so the last-record read always finds a record), every record in
the results dictionary carries all eight output fields and is stored under
the key equal to its own resolved name, its report row exists with the name
column equal to that resolved name, and report emission succeeds. -/
theorem c10_assembled_records_safe (soc : String → SocResult) (ia : String → String)
    (dlLines hpLines : List String) (st : RunResult)
    (h : runModule soc ia dlLines hpLines = .ok st) :
    (∀ dl, build_download_file_dict dlLines = .ok dl → ∀ p ∈ dl, p.2 ≠ []) ∧
      (∀ p ∈ st.results, ∀ v ∈ p.2, fieldsOk v = true ∧ getv v "soc_name" = some p.1 ∧
        ∃ r, rowOf p.1 v = some r ∧ r.head? = some p.1) ∧
      (emitReport st.results).isSome := by
  obtain ⟨dl, mst, hb, hm, hres, hproc⟩ := runModule_ok_parts h
  have hne := buildAux_nonempty (takeLines dlLines) [] dl hb
    (fun p hp => absurd hp (List.not_mem_nil p))
  have hInvMain : ResultsInv mst.results :=
    runMainPass_inv soc ia dl hne hpLines ⟨[], [], []⟩ mst hm
      (fun p hp => absurd hp (List.not_mem_nil p))
  have hlo := leftover_inv soc ia dl mst.processed hne
  have hInv : ResultsInv st.results := by
    rw [hres]
    exact resultsInv_pushAll hlo hInvMain
  refine ⟨?_, ?_, ?_⟩
  · intro dl2 hb2 p hp
    rw [hb] at hb2
    cases hb2
    exact hne p hp
  · intro p hp v hv
    obtain ⟨hok, hname⟩ := hInv p hp v hv
    exact ⟨hok, hname, rowTotal p.1 v, rowOf_of_fieldsOk hok p.1, rfl⟩
  · have hwf : ∀ p ∈ st.results, ∀ v ∈ p.2, fieldsOk v = true :=
      fun p hp v hv => (hInv p hp v hv).1
    rw [emitReport_eq hwf]
    rfl

/-- Witness for c10_assembled_records_safe at a concrete run. -/
theorem c10_assembled_records_safe_witness :
    runModule socUnknown iaProbe wDlLines wHpLines = .ok wSt ∧
      (emitReport wSt.results).isSome :=
  ⟨by rfl,
    (c10_assembled_records_safe socUnknown iaProbe wDlLines wHpLines wSt (by rfl)).2.2⟩

/-- C2: when several download entries share one identifier, the Download
Index binds that identifier to the ordered list of one DownloadRecord per
entry in file order, and the snapshot filename and timestamp the engine
copies into a DatasetRecord come from the last DownloadRecord of that
list. -/
theorem c2_last_download_record_wins (dlLines : List String) (sid : String)
    (dl : StrDict) (l : List Values)
    (hb : build_download_file_dict dlLines = .ok dl)
    (hl : dictGet dl sid = some l) :
    l = matchingRecords sid dlLines ∧ l ≠ [] ∧
      ∀ r, l.getLast? = some r → ∀ values,
        getv (assembleSnapshots values l) "dataset_snapshot_filename" =
            getv r "download_filename" ∧
          getv (assembleSnapshots values l) "dataset_snapshot_dl_ts" =
            getv r "download_ts" := by
  have hg := build_get sid hb
  rw [hl] at hg
  by_cases hm : matchingRecords sid dlLines = []
  · rw [if_pos hm] at hg; cases hg
  · rw [if_neg hm] at hg
    have hleq : l = matchingRecords sid dlLines := by
      injection hg
    refine ⟨hleq, by rw [hleq]; exact hm, ?_⟩
    intro r hr values
    have hrec := assembleSnapshots_last hr values
    have hrmem : r ∈ l := List.mem_of_mem_getLast? hr
    rw [hleq] at hrmem
    unfold matchingRecords mrecsAux at hrmem
    rw [List.mem_filterMap] at hrmem
    obtain ⟨line, hline, hfr⟩ := hrmem
    have hrform : ∃ secs, r = mkDownloadRecord line secs := by
      cases hp : parseDownloadLine line.data with
      | none => rw [hp] at hfr; cases hfr
      | some pr =>
        rw [hp] at hfr
        dsimp only at hfr
        split at hfr
        · rw [Option.some.injEq] at hfr
          exact ⟨digitsToNat pr.2, hfr.symm⟩
        · cases hfr
    obtain ⟨secs, rfl⟩ := hrform
    constructor
    · have hx : getv (mkDownloadRecord line secs) "download_filename" = some line := by
        simp [mkDownloadRecord, getv]
      rw [hrec.1, hx, Option.getD_some]
    · have hx : getv (mkDownloadRecord line secs) "download_ts" =
          some (utcTimestampStr secs) := by
        simp [mkDownloadRecord, getv]
      rw [hrec.2, hx, Option.getD_some]

/-- Witness input: a download list with two entries sharing aaaa-bbbb. -/
def w2DlLines : List String := ["aaaa-bbbb_1.5_f1.csv", "aaaa-bbbb_2.5_f2.csv"]

/-- The download index of the two-entry witness. -/
def w2Dl : StrDict := (build_download_file_dict w2DlLines).toOption.getD []

/-- The list bound to aaaa-bbbb in the two-entry witness index. -/
def w2L : List Values := (dictGet w2Dl "aaaa-bbbb").getD []

/-- The last download record of the two-entry witness list. -/
def w2r : Values := w2L.getLast?.getD []

/-- Witness for c2_last_download_record_wins at a concrete two-entry list. -/
theorem c2_last_download_record_wins_witness :
    build_download_file_dict w2DlLines = .ok w2Dl ∧
      dictGet w2Dl "aaaa-bbbb" = some w2L ∧
      w2L.getLast? = some w2r ∧
      getv (assembleSnapshots [] w2L) "dataset_snapshot_filename" =
        getv w2r "download_filename" :=
  ⟨by rfl, by rfl, by rfl,
    ((c2_last_download_record_wins w2DlLines "aaaa-bbbb" w2Dl w2L (by rfl)
      (by rfl)).2.2 w2r (by rfl) []).1⟩

theorem dictGet_keys_map {d : StrDict} (hnd : (dictKeys d).Nodup) :
    (dictKeys d).map (fun n => (dictGet d n).getD []) = d.map Prod.snd := by
  induction d with
  | nil => rfl
  | cons p rest ih =>
    obtain ⟨k, l⟩ := p
    have hnd2 := List.nodup_cons.mp hnd
    show (k :: dictKeys rest).map _ = l :: rest.map Prod.snd
    rw [List.map_cons]
    congr 1
    · show (dictGet ((k, l) :: rest) k).getD [] = l
      simp [dictGet]
    · rw [← ih hnd2.2]
      refine List.map_congr_left ?_
      intro n hn
      have hne : ¬ k = n := fun he => hnd2.1 (he ▸ hn)
      show (dictGet ((k, l) :: rest) n).getD [] = (dictGet rest n).getD []
      simp [dictGet, hne]

/-- C4: for a well-formed results dictionary, the emitted report is the
fixed preamble rows, then the fixed eight-column header row, then one data
row of eight cells per assembled record; the data rows are pairwise ordered
so that the name column is non-decreasing (grouping rows by name in
ascending default string order) and rows sharing a name have non-decreasing
identifier columns.  emitReport is a pure function of the assembled results,
so the ordering is deterministic for identical inputs. -/
theorem c4_report_shape_and_order (results : StrDict)
    (hwf : ∀ p ∈ results, ∀ v ∈ p.2, fieldsOk v = true)
    (hnd : (dictKeys results).Nodup) :
    ∃ dr, emitReport results = some (preambleRows ++ reportHeaderRow :: dr) ∧
      dr.length = (allRecords results).length ∧
      reportHeaderRow.length = 8 ∧
      (∀ row ∈ dr, row.length = 8) ∧
      List.Pairwise rowLe dr := by
  refine ⟨dataRowsTotal results, emitReport_eq hwf, ?_, rfl, ?_, ?_⟩
  · unfold dataRowsTotal allRecords
    rw [List.length_flatten, List.length_flatten, List.map_map, List.map_map]
    have hstep1 : List.map (List.length ∘ fun n =>
        (sortBy (fun a b => strLe (recId a) (recId b)) ((dictGet results n).getD [])).map
          (rowTotal n)) (sortBy strLe (dictKeys results)) =
        List.map (fun n => ((dictGet results n).getD []).length)
          (sortBy strLe (dictKeys results)) := by
      refine List.map_congr_left ?_
      intro n hn
      show ((sortBy _ ((dictGet results n).getD [])).map (rowTotal n)).length = _
      rw [List.length_map]
      exact (sortBy_perm _ _).length_eq
    rw [hstep1]
    rw [List.Perm.sum_eq ((sortBy_perm strLe (dictKeys results)).map _)]
    have hstep2 : List.map (fun n => ((dictGet results n).getD []).length)
        (dictKeys results) =
        List.map List.length ((dictKeys results).map (fun n => (dictGet results n).getD [])) := by
      rw [List.map_map]
      rfl
    rw [hstep2, dictGet_keys_map hnd, ← List.map_map]
  · intro row hrow
    unfold dataRowsTotal at hrow
    rw [List.mem_flatten] at hrow
    obtain ⟨grp, hgrp, hrowg⟩ := hrow
    rw [List.mem_map] at hgrp
    obtain ⟨n, hn, rfl⟩ := hgrp
    rw [List.mem_map] at hrowg
    obtain ⟨v, hv, rfl⟩ := hrowg
    rfl
  · unfold dataRowsTotal
    rw [List.pairwise_flatten]
    constructor
    · intro grp hgrp
      rw [List.mem_map] at hgrp
      obtain ⟨n, hn, rfl⟩ := hgrp
      rw [List.pairwise_map]
      have hsorted := pairwise_sortBy
        (fun a b => strLe_total (recId a) (recId b))
        (fun a b c h1 h2 => strLe_trans h1 h2)
        ((dictGet results n).getD [])
      refine List.Pairwise.imp ?_ hsorted
      intro a b hab
      exact ⟨strLe_refl n, fun _ => hab⟩
    · rw [List.pairwise_map]
      have hnames := pairwise_sortBy strLe_total (fun a b c h1 h2 => strLe_trans h1 h2)
        (dictKeys results)
      have hnodup : (sortBy strLe (dictKeys results)).Nodup :=
        ((sortBy_perm strLe (dictKeys results)).nodup_iff).mpr hnd
      refine List.Pairwise.imp ?_ (hnames.and hnodup)
      intro n1 n2 hpair x hx y hy
      rw [List.mem_map] at hx hy
      obtain ⟨a, ha, rfl⟩ := hx
      obtain ⟨b, hb, rfl⟩ := hy
      exact ⟨hpair.1, fun heq => absurd heq hpair.2⟩

/-- Witness for c4_report_shape_and_order at the results of a concrete
run. -/
theorem c4_report_shape_and_order_witness :
    (∀ p ∈ wSt.results, ∀ v ∈ p.2, fieldsOk v = true) ∧
      (dictKeys wSt.results).Nodup ∧
      (∃ dr, emitReport wSt.results = some (preambleRows ++ reportHeaderRow :: dr) ∧
        dr.length = (allRecords wSt.results).length ∧
        reportHeaderRow.length = 8 ∧
        (∀ row ∈ dr, row.length = 8) ∧
        List.Pairwise rowLe dr) :=
  ⟨by decide, by decide, c4_report_shape_and_order wSt.results (by decide) (by decide)⟩

theorem get_socrata_data_eq_falsy {soc : String → SocResult} {sid : String}
    (hf : metaFalsy (soc sid).meta = true) :
    get_socrata_data soc sid =
      setv [("soc_name", "UNKN_SOC_NAME"), ("soc_homepage", ""), ("soc_description", "")]
        "socrata_meta" (soc sid).stdout := by
  unfold get_socrata_data
  dsimp only
  rw [if_pos hf]

theorem get_socrata_data_eq_error {soc : String → SocResult} {sid : String} {m : Values}
    (hm : (soc sid).meta = some m) (hnf : metaFalsy (soc sid).meta = false)
    (herr : (getv m "error").isSome = true) :
    get_socrata_data soc sid =
      setv (copyIfPresent m "name"
          [("soc_name", "UNKN_SOC_NAME"), ("soc_homepage", ""), ("soc_description", "")]
          "soc_name")
        "socrata_meta" (pyStrMeta m) := by
  unfold get_socrata_data
  dsimp only
  rw [if_neg (by simp [hnf])]
  split
  · rename_i heq
    rw [hm] at heq
    cases heq
  · rename_i m2 heq
    rw [hm] at heq
    injection heq with heq2
    subst heq2
    rw [if_pos herr]

theorem get_socrata_data_eq_normal {soc : String → SocResult} {sid : String} {m : Values}
    (hm : (soc sid).meta = some m) (hnf : metaFalsy (soc sid).meta = false)
    (herr : getv m "error" = none) :
    get_socrata_data soc sid =
      setv (copyIfPresent m "description"
          (copyIfPresent m "homepage"
            (copyIfPresent m "name"
              [("soc_name", "UNKN_SOC_NAME"), ("soc_homepage", ""), ("soc_description", "")]
              "soc_name")
            "soc_homepage")
          "soc_description")
        "socrata_meta" (pyStrMeta m) := by
  unfold get_socrata_data
  dsimp only
  rw [if_neg (by simp [hnf])]
  split
  · rename_i heq
    rw [hm] at heq
    cases heq
  · rename_i m2 heq
    rw [hm] at heq
    injection heq with heq2
    subst heq2
    rw [if_neg (by simp [herr])]

/-- C5: get_socrata_data never raises and every branch yields a fully
populated record.  With no usable collaborator result the name is the
sentinel UNKN_SOC_NAME and the raw metadata is the captured stdout text
(empty when there was none); with an error payload the name is taken from
the payload when present (sentinel otherwise) and the raw metadata is the
string form of the whole payload; with a normal payload name, homepage and
description are extracted independently when present (defaults preserved
otherwise) and the raw metadata is the string form of the payload. -/
theorem c5_socrata_resolver_branches (soc : String → SocResult) (sid : String) :
    ((getv (get_socrata_data soc sid) "soc_name").isSome ∧
      (getv (get_socrata_data soc sid) "soc_homepage").isSome ∧
      (getv (get_socrata_data soc sid) "soc_description").isSome ∧
      (getv (get_socrata_data soc sid) "socrata_meta").isSome) ∧
    (metaFalsy (soc sid).meta = true →
      getv (get_socrata_data soc sid) "soc_name" = some "UNKN_SOC_NAME" ∧
      getv (get_socrata_data soc sid) "socrata_meta" = some (soc sid).stdout ∧
      getv (get_socrata_data soc sid) "soc_homepage" = some "" ∧
      getv (get_socrata_data soc sid) "soc_description" = some "") ∧
    (∀ m, (soc sid).meta = some m → metaFalsy (soc sid).meta = false →
      (getv m "error").isSome = true →
      getv (get_socrata_data soc sid) "soc_name" =
          some ((getv m "name").getD "UNKN_SOC_NAME") ∧
      getv (get_socrata_data soc sid) "socrata_meta" = some (pyStrMeta m) ∧
      getv (get_socrata_data soc sid) "soc_homepage" = some "" ∧
      getv (get_socrata_data soc sid) "soc_description" = some "") ∧
    (∀ m, (soc sid).meta = some m → metaFalsy (soc sid).meta = false →
      getv m "error" = none →
      getv (get_socrata_data soc sid) "soc_name" =
          some ((getv m "name").getD "UNKN_SOC_NAME") ∧
      getv (get_socrata_data soc sid) "soc_homepage" =
          some ((getv m "homepage").getD "") ∧
      getv (get_socrata_data soc sid) "soc_description" =
          some ((getv m "description").getD "") ∧
      getv (get_socrata_data soc sid) "socrata_meta" = some (pyStrMeta m)) := by
  refine ⟨get_socrata_data_fields soc sid, ?_, ?_, ?_⟩
  · intro hf
    rw [get_socrata_data_eq_falsy hf]
    refine ⟨?_, ?_, ?_, ?_⟩ <;> simp [setv, getv]
  · intro m hm hnf herr
    rw [get_socrata_data_eq_error hm hnf herr]
    refine ⟨?_, ?_, ?_, ?_⟩
    · rw [getv_setv_ne _ _ (by decide)]
      exact getv_copyIfPresent_self m "name" _ (by simp [getv])
    · rw [getv_setv_self]
    · rw [getv_setv_ne _ _ (by decide), getv_copyIfPresent_other _ _ _ (by decide)]
      simp [getv]
    · rw [getv_setv_ne _ _ (by decide), getv_copyIfPresent_other _ _ _ (by decide)]
      simp [getv]
  · intro m hm hnf herr
    rw [get_socrata_data_eq_normal hm hnf herr]
    refine ⟨?_, ?_, ?_, ?_⟩
    · rw [getv_setv_ne _ _ (by decide), getv_copyIfPresent_other _ _ _ (by decide),
        getv_copyIfPresent_other _ _ _ (by decide)]
      exact getv_copyIfPresent_self m "name" _ (by simp [getv])
    · rw [getv_setv_ne _ _ (by decide), getv_copyIfPresent_other _ _ _ (by decide)]
      refine getv_copyIfPresent_self m "homepage" _ ?_
      rw [getv_copyIfPresent_other _ _ _ (by decide)]
      simp [getv]
    · rw [getv_setv_ne _ _ (by decide)]
      refine getv_copyIfPresent_self m "description" _ ?_
      rw [getv_copyIfPresent_other _ _ _ (by decide),
        getv_copyIfPresent_other _ _ _ (by decide)]
      simp [getv]
    · rw [getv_setv_self]

/-- A collaborator whose payload carries an error key, a name, a homepage
and a description, used to exercise the error and normal branches. -/
def socErrorful : String → SocResult :=
  fun _ => ⟨some [("error", "boom"), ("name", "EN")], "diag"⟩

/-- Witness for c5_socrata_resolver_branches: the falsy branch at a
collaborator returning nothing, and the error branch at a collaborator
returning an error payload with a name. -/
theorem c5_socrata_resolver_branches_witness :
    (metaFalsy (socUnknown "x").meta = true ∧
      getv (get_socrata_data socUnknown "x") "soc_name" = some "UNKN_SOC_NAME") ∧
    ((socErrorful "x").meta = some [("error", "boom"), ("name", "EN")] ∧
      getv (get_socrata_data socErrorful "x") "soc_name" = some "EN") :=
  ⟨⟨by rfl, ((c5_socrata_resolver_branches socUnknown "x").2.1 (by rfl)).1⟩,
   ⟨by rfl, by
      have h := ((c5_socrata_resolver_branches socErrorful "x").2.2.1
        [("error", "boom"), ("name", "EN")] (by rfl) (by rfl) (by rfl)).1
      rw [h]
      rfl⟩⟩

/-- C9: the download list line yt7u-eiyg_1736710755.963349_NCHS_Births.csv.gz
is accepted, yields identifier yt7u-eiyg, and its epoch timestamp renders as
exactly 2025-01-12 19:39:15 UTC (fractional seconds truncated, UTC). -/
theorem c9_concrete_line_parse :
    Except.map (fun dl => dictGet dl "yt7u-eiyg")
        (build_download_file_dict ["yt7u-eiyg_1736710755.963349_NCHS_Births.csv.gz"]) =
      .ok (some [[("download_filename", "yt7u-eiyg_1736710755.963349_NCHS_Births.csv.gz"),
        ("download_ts", "2025-01-12 19:39:15 UTC")]]) := by
  rfl

/-- C3 evidence: for an identifier present only in the download list, whose
catalog metadata carries no homepage (so the resolved homepage stays empty),
the leftover pass still invokes the archive collaborator — with the empty
string as the url — and stores whatever it answers in the archive snapshots
field, because the key-presence test on soc_homepage is always true.  The
documented skip never happens. -/
theorem c3_leftover_always_queries_archive :
    Except.map (fun st => st.iaCalls)
        (runModule socNamedNM iaProbe ["aaaa-bbbb_1.5_f.csv"] []) = .ok [""] ∧
      Except.map (fun st => (allRecords st.results).map
          (fun v => getv v "internet_archive_snapshots"))
        (runModule socNamedNM iaProbe ["aaaa-bbbb_1.5_f.csv"] []) =
        .ok [some "IA_AT_EMPTY"] ∧
      Except.map (fun st => (allRecords st.results).map (fun v => getv v "homepage"))
        (runModule socNamedNM iaProbe ["aaaa-bbbb_1.5_f.csv"] []) = .ok [some ""] := by
  refine ⟨by rfl, by rfl, by rfl⟩

/-- C6 (amended): an unparseable download filename is skipped without
aborting the index build, and a homepage url without a valid identifier
yields an entry the engine skips; but a homepage line whose comma split does
not produce exactly two fields raises an uncaught ValueError that aborts the
run rather than being skipped. -/
theorem c6_malformed_line_handling :
    (∀ (d : StrDict) (line : String), parseDownloadLine line.data = none →
      buildStep d line = .ok d) ∧
    (∀ (soc : String → SocResult) (ia : String → String) (dl : StrDict)
      (rest : List String) (st : MainState) (raw homepage : String),
      get_next_homepage_url_line raw = .entry none homepage →
      runMainPass soc ia dl (raw :: rest) st = runMainPass soc ia dl rest st) ∧
    (∀ (soc : String → SocResult) (ia : String → String) (dl : StrDict)
      (rest : List String) (st : MainState) (raw : String),
      get_next_homepage_url_line raw = .valueError →
      runMainPass soc ia dl (raw :: rest) st =
        .error "ValueError: unhandled homepage line") := by
  refine ⟨?_, ?_, ?_⟩
  · intro d line hp
    unfold buildStep
    rw [hp]
  · intro soc ia dl rest st raw homepage hg
    simp only [runMainPass]
    rw [hg]
  · intro soc ia dl rest st raw hg
    simp only [runMainPass]
    rw [hg]

/-- C6 counterexample: a homepage line without a comma makes the run abort
with an uncaught ValueError, so the later well-formed homepage line is never
processed — the claim of non-fatal skip-and-log fails for the comma split. -/
theorem c6_comma_split_counterexample :
    get_next_homepage_url_line "nocomma" = .valueError ∧
      runModule socUnknown iaProbe [] ["nocomma", "s,https://h/aaaa-bbbb"] =
        .error "ValueError: unhandled homepage line" ∧
      get_next_homepage_url_line "s,https://h/aaaa-bbbb" =
        .entry (some "aaaa-bbbb") "https://h/aaaa-bbbb" := by
  refine ⟨by rfl, by rfl, by rfl⟩

/-- Witness for c6_malformed_line_handling on concrete malformed lines. -/
theorem c6_malformed_line_handling_witness :
    parseDownloadLine "notAdownload".data = none ∧
      buildStep [] "notAdownload" = .ok [] ∧
      get_next_homepage_url_line "s,https://h/notanid" = .entry none "https://h/notanid" ∧
      runMainPass socUnknown iaProbe [] ["s,https://h/notanid"] ⟨[], [], []⟩ =
        runMainPass socUnknown iaProbe [] [] ⟨[], [], []⟩ ∧
      get_next_homepage_url_line "a,b,c" = .valueError ∧
      runMainPass socUnknown iaProbe [] ["a,b,c"] ⟨[], [], []⟩ =
        .error "ValueError: unhandled homepage line" :=
  ⟨by rfl, c6_malformed_line_handling.1 [] "notAdownload" (by rfl),
   by rfl, c6_malformed_line_handling.2.1 socUnknown iaProbe [] [] ⟨[], [], []⟩
     "s,https://h/notanid" "https://h/notanid" (by rfl),
   by rfl, c6_malformed_line_handling.2.2 socUnknown iaProbe [] [] ⟨[], [], []⟩
     "a,b,c" (by rfl)⟩

/-- C8 counterexample: the builder accepts the line abc-de_12.5_foo and keys
the index by abc-de, a string the identifier validator rejects — so not
every Download Index key is a valid identifier. -/
theorem c8_lax_key_counterexample :
    Except.map dictKeys (build_download_file_dict ["abc-de_12.5_foo"]) = .ok ["abc-de"] ∧
      is_socrata_id "abc-de" = false := by
  refine ⟨by rfl, by decide⟩

/-- C8 (amended): every key of the Download Index consists of one or more
alphanumerics, one hyphen, and one or more alphanumerics — the builder
pattern uses unbounded repetitions, so keys need not have the exact
four-hyphen-four identifier shape. -/
theorem c8_index_keys_lax_shape (dlLines : List String) (dl : StrDict)
    (hb : build_download_file_dict dlLines = .ok dl) :
    ∀ k ∈ dictKeys dl, laxIdShape k = true :=
  buildAux_keyshape (takeLines dlLines) [] dl hb (fun k hk => absurd hk (List.not_mem_nil k))

/-- Witness for c8_index_keys_lax_shape at a concrete build. -/
theorem c8_index_keys_lax_shape_witness :
    build_download_file_dict ["abc-de_12.5_foo"] =
        .ok [("abc-de", [[("download_filename", "abc-de_12.5_foo"),
          ("download_ts", "1970-01-01 00:00:12 UTC")]])] ∧
      laxIdShape "abc-de" = true :=
  ⟨by rfl,
    c8_index_keys_lax_shape ["abc-de_12.5_foo"]
      [("abc-de", [[("download_filename", "abc-de_12.5_foo"),
        ("download_ts", "1970-01-01 00:00:12 UTC")]])] (by rfl) "abc-de" (by decide)⟩

/-- C7 counterexample: is_socrata_id accepts the string abcd-1234 followed
by one newline, because the Python dollar anchor also matches just before a
final newline — contradicting the claim that no trailing characters of any
kind are accepted. -/
theorem c7_trailing_newline_counterexample :
    is_socrata_id "abcd-1234\n" = true ∧ specIdShape "abcd-1234\n" = false := by
  refine ⟨by decide, by decide⟩

theorem is_socrata_id_long (a b c d m e f g h : Char) (rest : List Char) :
    is_socrata_id ⟨a :: b :: c :: d :: m :: e :: f :: g :: h :: rest⟩ =
      ((m == '-' && [a, b, c, d, e, f, g, h].all isAlnumA) && dollarAccepts rest) := by
  unfold is_socrata_id
  dsimp only
  by_cases hc : (m == '-' && [a, b, c, d, e, f, g, h].all isAlnumA) = true
  · rw [show idCoreAfter (a :: b :: c :: d :: m :: e :: f :: g :: h :: rest) = some rest by
      simp only [idCoreAfter]; rw [if_pos hc]]
    show dollarAccepts rest = _
    rw [hc, Bool.true_and]
  · rw [show idCoreAfter (a :: b :: c :: d :: m :: e :: f :: g :: h :: rest) = none by
      simp only [idCoreAfter]; rw [if_neg hc]]
    show false = _
    rw [Bool.not_eq_true] at hc
    rw [hc, Bool.false_and]

/-- C7 (amended): is_socrata_id accepts exactly the strings of shape four
alphanumerics, one hyphen, four alphanumerics — standing alone, or followed
by one single trailing newline, because the Python dollar anchor also
matches just before a final newline.  The three documented example values
are unchanged, and the function is total. -/
theorem c7_id_validator_shape (s : String) :
    (is_socrata_id s =
      (specIdShape s ||
        (specIdShape (String.mk s.data.dropLast) && endsWithNewline s))) ∧
    is_socrata_id "abcd-1234" = true ∧
    is_socrata_id "abcd1234" = false ∧
    is_socrata_id "ab-cd" = false := by
  refine ⟨?_, by decide, by decide, by decide⟩
  obtain ⟨l⟩ := s
  show is_socrata_id ⟨l⟩ = _
  rcases l with _ | ⟨a, _ | ⟨b, _ | ⟨c, _ | ⟨d, _ | ⟨m, _ | ⟨e, _ | ⟨f, _ | ⟨g, _ | ⟨h, rest⟩⟩⟩⟩⟩⟩⟩⟩⟩
  · decide
  · simp [is_socrata_id, idCoreAfter, specIdShape, endsWithNewline, dollarAccepts, List.dropLast]
  · simp [is_socrata_id, idCoreAfter, specIdShape, endsWithNewline, dollarAccepts, List.dropLast]
  · simp [is_socrata_id, idCoreAfter, specIdShape, endsWithNewline, dollarAccepts, List.dropLast]
  · simp [is_socrata_id, idCoreAfter, specIdShape, endsWithNewline, dollarAccepts, List.dropLast]
  · simp [is_socrata_id, idCoreAfter, specIdShape, endsWithNewline, dollarAccepts, List.dropLast]
  · simp [is_socrata_id, idCoreAfter, specIdShape, endsWithNewline, dollarAccepts, List.dropLast]
  · simp [is_socrata_id, idCoreAfter, specIdShape, endsWithNewline, dollarAccepts, List.dropLast]
  · simp [is_socrata_id, idCoreAfter, specIdShape, endsWithNewline, dollarAccepts, List.dropLast]
  · rw [is_socrata_id_long]
    rcases rest with _ | ⟨x, _ | ⟨y, ys⟩⟩
    · simp [specIdShape, endsWithNewline, dollarAccepts, List.dropLast, List.get?,
        Bool.and_assoc]
    · simp [specIdShape, endsWithNewline, dollarAccepts, List.dropLast, List.get?,
        List.getLast?_cons_cons, List.getLast?_singleton, Bool.and_assoc]
    · have hl1 : ((a :: b :: c :: d :: m :: e :: f :: g :: h :: x :: y :: ys).length == 9)
          = false := by
        simp [List.length_cons]
      have hl2 : (((a :: b :: c :: d :: m :: e :: f :: g :: h :: x :: y :: ys).dropLast).length
          == 9) = false := by
        simp [List.length_dropLast, List.length_cons]
      simp [specIdShape, endsWithNewline, dollarAccepts, hl1, hl2]

end CdcMeta
